import Mathlib

/-!
Verification of the core algorithms of the graphql-utilities repository:
the fragment synthesis engine (src/unnamed/part_004, second variant of the
generate route: generateFragments, findOrCreateFragmentName, createFragment)
and the structural data validator (src/lib/utils/schema-validator.ts).

The TypeScript code is shallowly embedded: JavaScript objects become Lean
structures, JS Maps and Records become association lists with first-match
lookup and in-place update (setKV), and the recursive functions become
Lean functions.  Functions whose JS recursion is bounded by a depth guard
(createFragment: depth > maxDepth) or by the finite data value (the
validator) are written with an explicit structural fuel parameter so that
they compute by kernel reduction; the public wrappers instantiate the fuel
with a bound (maxDepth + 1 - depth, resp. sizeOf data) that the guards of
the source keep from ever being exhausted, so the wrappers agree with the
source semantics on every input.
-/

namespace GraphqlUtil

/-- Association-list lookup: first entry whose key matches, like JS
Map.get / Record indexing. -/
def lookupKV {α : Type} : List (String × α) → String → Option α
  | [], _ => none
  | (k, v) :: rest, key => if k = key then some v else lookupKV rest key

/-- Key membership, like the JS truthiness test on Record access (all
stored values in this development are nonempty strings or lists). -/
def containsKey {α : Type} (m : List (String × α)) (key : String) : Bool :=
  (lookupKV m key).isSome

/-- JS Map.set / Record assignment: update the first entry with the key in
place, or append a new entry at the end. -/
def setKV {α : Type} : List (String × α) → String → α → List (String × α)
  | [], key, v => [(key, v)]
  | (k, w) :: rest, key, v =>
      if k = key then (k, v) :: rest else (k, w) :: setKV rest key v

/-- A GraphQL introspection type reference, as the generate route reads it
from schema JSON: NON_NULL and LIST wrappers around a named base type whose
kind is one of SCALAR, OBJECT, ENUM, INTERFACE, UNION, INPUT_OBJECT. -/
inductive TypeRef : Type
  | nonNull (ofType : TypeRef)
  | listT (ofType : TypeRef)
  | base (kind : String) (name : String)
deriving DecidableEq, Repr

/-- A field of a type definition (arguments are irrelevant to fragment
synthesis and are omitted). -/
structure FieldDef : Type where
  name : String
  type : TypeRef
deriving DecidableEq, Repr

/-- A type definition from schema.types.  fields is null (none) for
scalar and enum definitions in introspection output. -/
structure TypeDef : Type where
  name : String
  kind : String
  fields : Option (List FieldDef)
deriving DecidableEq, Repr

/-- The schema object consumed by generateFragments (only the types array
matters to it). -/
structure Schema : Type where
  types : List TypeDef
deriving DecidableEq, Repr

/-- getTypeName from part_004: strip NON_NULL and LIST wrappers and return
the underlying name. -/
def getTypeName : TypeRef → String
  | TypeRef.nonNull t => getTypeName t
  | TypeRef.listT t => getTypeName t
  | TypeRef.base _ n => n

/-- isScalarType from part_004: SCALAR, or NON_NULL directly wrapping
SCALAR. -/
def isScalarType : TypeRef → Bool
  | TypeRef.base "SCALAR" _ => true
  | TypeRef.nonNull (TypeRef.base "SCALAR" _) => true
  | _ => false

/-- isObjectType from part_004: OBJECT, LIST, or NON_NULL directly
wrapping OBJECT or LIST. -/
def isObjectType : TypeRef → Bool
  | TypeRef.base "OBJECT" _ => true
  | TypeRef.listT _ => true
  | TypeRef.nonNull (TypeRef.base "OBJECT" _) => true
  | TypeRef.nonNull (TypeRef.listT _) => true
  | _ => false

/-- Lexicographic comparison of character lists by code point, the order
JS Array.prototype.sort applies to (ASCII) strings.  Written structurally
so that it computes by kernel reduction (the builtin String order does
not). -/
def charListLe : List Char → List Char → Bool
  | [], _ => true
  | _ :: _, [] => false
  | a :: as, b :: bs =>
      if a.toNat < b.toNat then true
      else if b.toNat < a.toNat then false
      else charListLe as bs

/-- String comparison used for the signature token sort. -/
def strLe (a b : String) : Bool := charListLe a.data b.data

/-- The sort JS applies to the token array: lexicographic, default
comparator. -/
def sortStrings (l : List String) : List String :=
  List.insertionSort (fun a b => strLe a b = true) l

/-- The field tokens of the detailed signature computed inside
createFragment: one string fieldName:unwrappedTypeName per field. -/
def sigTokens (fs : List FieldDef) : List String :=
  fs.map (fun f => f.name ++ ":" ++ getTypeName f.type)

/-- The detailed signature computed inside createFragment: the field
tokens, sorted lexicographically (JS Array.prototype.sort on strings),
joined with commas and wrapped in typeName[...]. -/
def mkSig (typeName : String) (fs : List FieldDef) : String :=
  typeName ++ "[" ++ String.intercalate "," (sortStrings (sigTokens fs)) ++ "]"

/-- The per-run mutable state of generateFragments: the fragments Record
(fragment name to fragment source), the fragmentCache Map (type name to
list of signature/fragmentName entries) and the fragmentCounters Map. -/
structure GenState : Type where
  fragments : List (String × String)
  cache : List (String × List (String × String))
  counters : List (String × Nat)
deriving DecidableEq, Repr

/-- The empty initial state of a generateFragments run. -/
def initState : GenState := ⟨[], [], []⟩

/-- findOrCreateFragmentName from part_004: reuse the fragment name of an
entry with the same signature, else allocate the next variant name
typeNameFragment_k, else (first time the type name is seen) the bare name
typeNameFragment. -/
def findOrCreateFragmentName (st : GenState) (typeName signature : String) :
    String × GenState :=
  match lookupKV st.cache typeName with
  | some cached =>
      match cached.find? (fun e => e.1 == signature) with
      | some e => (e.2, st)
      | none =>
          let counter := (lookupKV st.counters typeName).getD 1 + 1
          let newFragmentName := typeName ++ "Fragment_" ++ toString counter
          (newFragmentName,
            { st with
                counters := setKV st.counters typeName counter,
                cache := setKV st.cache typeName (cached ++ [(signature, newFragmentName)]) })
  | none =>
      let fragmentName := typeName ++ "Fragment"
      (fragmentName,
        { st with
            cache := setKV st.cache typeName [(signature, fragmentName)],
            counters := setKV st.counters typeName 1 })

/-- The body of the fields.map(...) loop of createFragment, with the
recursive call abstracted as nested (state-threading makes the loop a
fold).  A scalar field yields its bare name; an object field yields a
spread of the nested fragment when one could be built and the bare name
otherwise (cycle, depth cutoff, empty name or unresolved type); any other
field yields its bare name. -/
def buildFieldStep (maxDepth : Nat) (depth : Nat)
    (nested : GenState → String → Option String × GenState)
    (st : GenState) (f : FieldDef) : String × GenState :=
  if isScalarType f.type then (f.name, st)
  else if isObjectType f.type then
    if getTypeName f.type ≠ "" ∧ depth < maxDepth then
      ((match (nested st (getTypeName f.type)).1 with
        | some nfn => f.name ++ " \x7b ..." ++ nfn ++ " \x7d"
        | none => f.name),
       (nested st (getTypeName f.type)).2)
    else (f.name, st)
  else (f.name, st)

/-- The fields.map(...) loop itself, threading the state left to right. -/
def buildFieldsGo (maxDepth : Nat) (depth : Nat)
    (nested : GenState → String → Option String × GenState) :
    GenState → List FieldDef → List String × GenState
  | st, [] => ([], st)
  | st, f :: rest =>
      let step := buildFieldStep maxDepth depth nested st f
      let restR := buildFieldsGo maxDepth depth nested step.2 rest
      (step.1 :: restR.1, restR.2)

/-- Resolution of the type definition used by createFragment: the
typeDefToUse argument when supplied (top-level invocation), else the first
schema type of that name. -/
def resolveTd (σ : Schema) (tdu : Option TypeDef) (typeName : String) :
    Option TypeDef :=
  match tdu with
  | some td => some td
  | none => σ.types.find? (fun t => t.name == typeName)

/-- The body of createFragment after the guards have passed and the type
definition with its fields has been resolved: compute the detailed
signature, resolve the fragment name through the registry, return at once
when that fragment is already in the map, and otherwise build the field
selection (with the own name added to the visited set by the caller
through nested) and store the assembled fragment. -/
def createFragmentCore (maxDepth : Nat) (depth : Nat)
    (nested : GenState → String → Option String × GenState)
    (st : GenState) (typeName : String) (fs : List FieldDef) :
    Option String × GenState :=
  if containsKey (findOrCreateFragmentName st typeName (mkSig typeName fs)).2.fragments
      (findOrCreateFragmentName st typeName (mkSig typeName fs)).1 then
    (some (findOrCreateFragmentName st typeName (mkSig typeName fs)).1,
      (findOrCreateFragmentName st typeName (mkSig typeName fs)).2)
  else
    (some (findOrCreateFragmentName st typeName (mkSig typeName fs)).1,
      { (buildFieldsGo maxDepth depth nested
            (findOrCreateFragmentName st typeName (mkSig typeName fs)).2 fs).2 with
          fragments := setKV
            (buildFieldsGo maxDepth depth nested
              (findOrCreateFragmentName st typeName (mkSig typeName fs)).2 fs).2.fragments
            (findOrCreateFragmentName st typeName (mkSig typeName fs)).1
            ("fragment " ++ (findOrCreateFragmentName st typeName (mkSig typeName fs)).1 ++
              " on " ++ typeName ++ " \x7b " ++
              String.intercalate " "
                (buildFieldsGo maxDepth depth nested
                  (findOrCreateFragmentName st typeName (mkSig typeName fs)).2 fs).1 ++
              " \x7d") })

/-- createFragment from part_004, with a structural fuel parameter (the
wrapper createFragment below instantiates fuel with maxDepth + 1 - depth;
the guard depth > maxDepth of the source makes the fuel-0 branch agree
with the source).  Returns null when the name is empty (JS falsy), the
depth bound is exceeded, the name was already visited, the name does not
resolve to a definition, or the definition has no fields; otherwise
resolves the fragment name via the registry, returns it at once when the
fragment is already built, and otherwise builds the field selection with
its own name added to the visited set and stores the fragment. -/
def createFragmentF (σ : Schema) (maxDepth : Nat) :
    Nat → GenState → String → Nat → List String → Option TypeDef →
    Option String × GenState
  | 0, st, _, _, _, _ => (none, st)
  | Nat.succ fuel, st, typeName, depth, visited, tdu =>
      if typeName = "" ∨ depth > maxDepth ∨ typeName ∈ visited then (none, st)
      else
        match resolveTd σ tdu typeName with
        | none => (none, st)
        | some td =>
            match td.fields with
            | none => (none, st)
            | some fs =>
                createFragmentCore maxDepth depth
                  (fun st2 ftn =>
                    createFragmentF σ maxDepth fuel st2 ftn (depth + 1)
                      (typeName :: visited) none)
                  st typeName fs

/-- createFragment of the source: the fuel maxDepth + 1 - depth is positive
exactly while depth ≤ maxDepth, so the fuel-0 cutoff coincides with the
depth > maxDepth guard of the source on every reachable call. -/
def createFragment (σ : Schema) (maxDepth : Nat) (st : GenState)
    (typeName : String) (depth : Nat) (visited : List String)
    (tdu : Option TypeDef) : Option String × GenState :=
  createFragmentF σ maxDepth (maxDepth + 1 - depth) st typeName depth visited tdu

/-- One step of the schema.types.forEach loop of generateFragments: only
OBJECT definitions with a nonempty fields array are synthesized, and the
actual definition instance is passed as typeDefToUse. -/
def generateStep (σ : Schema) (maxDepth : Nat) (st : GenState) (t : TypeDef) :
    GenState :=
  if t.kind == "OBJECT" then
    match t.fields with
    | some fs => if fs.length > 0 then (createFragment σ maxDepth st t.name 0 [] (some t)).2 else st
    | none => st
  else st

/-- The full state after a generateFragments run. -/
def generateFragmentsState (σ : Schema) (maxDepth : Nat) : GenState :=
  σ.types.foldl (generateStep σ maxDepth) initState

/-- generateFragments from part_004: the fragments Record after the run. -/
def generateFragments (σ : Schema) (maxDepth : Nat) : List (String × String) :=
  (generateFragmentsState σ maxDepth).fragments

/-! ## The structural validator (src/lib/utils/schema-validator.ts) -/

/-- A JSON-like runtime value as the validator sees it (JS any).  undef is
the JS undefined value, distinct from null. -/
inductive JSValue : Type
  | null
  | undef
  | bool (b : Bool)
  | num (n : Int)
  | str (s : String)
  | arr (xs : List JSValue)
  | obj (kvs : List (String × JSValue))

/-- The JS test data === null || data === undefined. -/
def isNullish : JSValue → Bool
  | JSValue.null => true
  | JSValue.undef => true
  | _ => false

mutual
/-- Structural size of a JS value, bounding the recursion depth of the
validator (every recursive call of the source is on a strict subvalue). -/
def jsSize : JSValue → Nat
  | JSValue.null => 1
  | JSValue.undef => 1
  | JSValue.bool _ => 1
  | JSValue.num _ => 1
  | JSValue.str _ => 1
  | JSValue.arr xs => 1 + jsSizeList xs
  | JSValue.obj kvs => 1 + jsSizeObj kvs

/-- Size of a JS array body. -/
def jsSizeList : List JSValue → Nat
  | [] => 0
  | x :: rest => 1 + jsSize x + jsSizeList rest

/-- Size of a JS object body. -/
def jsSizeObj : List (String × JSValue) → Nat
  | [] => 0
  | (_, v) :: rest => 1 + jsSize v + jsSizeObj rest
end

/-- A GraphQLType reference as the validator consumes it: NonNull and List
wrappers over a named scalar, enum or object type.  In graphql-js an
object type carries its own field map; here an object reference carries
the name and the fields are read off the schema environment, which is
equivalent because buildSchema guarantees one definition per name. -/
inductive VType : Type
  | nonNull (ofType : VType)
  | listT (ofType : VType)
  | scalarT (name : String)
  | enumT (name : String)
  | objectT (name : String)
deriving DecidableEq, Repr

/-- A named type definition of the built schema (what schema.getType
returns): scalar, enum, or object with its ordered field map. -/
inductive NamedDef : Type
  | scalarD (name : String)
  | enumD (name : String)
  | objectD (name : String) (fields : List (String × VType))
deriving DecidableEq, Repr

/-- The name of a named definition. -/
def NamedDef.dname : NamedDef → String
  | NamedDef.scalarD n => n
  | NamedDef.enumD n => n
  | NamedDef.objectD n _ => n

/-- isObjectType on a schema definition. -/
def NamedDef.isObjectD : NamedDef → Bool
  | NamedDef.objectD _ _ => true
  | _ => false

/-- The validator-side schema: the named-type environment produced by
buildSchema (an external collaborator per the spec); schema.getType is
lookup by name. -/
def VSchema : Type := List NamedDef

/-- schema.getType. -/
def getTypeD (env : VSchema) (typeName : String) : Option NamedDef :=
  env.find? (fun d => d.dname == typeName)

/-- objectType.getFields() for the object type of the given name. -/
def objFieldsOf (env : VSchema) (typeName : String) : List (String × VType) :=
  match getTypeD env typeName with
  | some (NamedDef.objectD _ fs) => fs
  | _ => []

/-- MissingField record of schema-validator.ts. -/
structure MissingField : Type where
  path : String
  fieldName : String
  fieldType : String
  required : Bool
  parentType : String
deriving DecidableEq, Repr

/-- ExtraField record of schema-validator.ts. -/
structure ExtraField : Type where
  path : String
  fieldName : String
  reason : String
deriving DecidableEq, Repr

/-- TypeError record of schema-validator.ts. -/
structure TypeErr : Type where
  path : String
  fieldName : String
  expectedType : String
  actualType : String
deriving DecidableEq, Repr

/-- The three accumulating diagnostic lists of validateDataAgainstType. -/
structure Diags : Type where
  missing : List MissingField
  extra : List ExtraField
  typeErrors : List TypeErr
deriving DecidableEq, Repr

instance : EmptyCollection Diags := ⟨⟨[], [], []⟩⟩

instance : Append Diags :=
  ⟨fun a b => ⟨a.missing ++ b.missing, a.extra ++ b.extra, a.typeErrors ++ b.typeErrors⟩⟩

/-- ValidationResult of schema-validator.ts. -/
structure ValidationResult : Type where
  valid : Bool
  missingFields : List MissingField
  extraFields : List ExtraField
  typeErrors : List TypeErr
deriving DecidableEq, Repr

instance {ε α : Type} [DecidableEq ε] [DecidableEq α] : DecidableEq (Except ε α) := fun x y =>
  match x, y with
  | Except.error a, Except.error b => decidable_of_iff (a = b) (by simp)
  | Except.error _, Except.ok _ => isFalse (by simp)
  | Except.ok _, Except.error _ => isFalse (by simp)
  | Except.ok a, Except.ok b => decidable_of_iff (a = b) (by simp)

/-- getNamedType: unwrap NonNull and List completely. -/
def getNamedTypeV : VType → VType
  | VType.nonNull t => getNamedTypeV t
  | VType.listT t => getNamedTypeV t
  | t => t

/-- getTypeString: readable rendering (name, with ! and [...] wrappers). -/
def getTypeString : VType → String
  | VType.nonNull t => getTypeString t ++ "!"
  | VType.listT t => "[" ++ getTypeString t ++ "]"
  | VType.scalarT n => n
  | VType.enumT n => n
  | VType.objectT n => n

/-- isRequired: NonNull at the outermost layer. -/
def isRequiredV : VType → Bool
  | VType.nonNull _ => true
  | _ => false

/-- getJSType of schema-validator.ts: the runtime type tag of a value. -/
def getJSType : JSValue → String
  | JSValue.null => "null"
  | JSValue.undef => "undefined"
  | JSValue.arr _ => "array"
  | JSValue.bool _ => "boolean"
  | JSValue.num _ => "number"
  | JSValue.str _ => "string"
  | JSValue.obj _ => "object"

/-- Key lookup in a data object (the JS `data[key]` / `key in data`). -/
def jlookup : List (String × JSValue) → String → Option JSValue
  | [], _ => none
  | (k, v) :: rest, key => if k = key then some v else jlookup rest key

/-- The data.forEach loop of the List branch: validate every element with
path extended by the element index. -/
def validateListGo (recv : JSValue → String → Diags) (path : String) :
    Nat → List JSValue → Diags
  | _, [] => ∅
  | i, x :: rest =>
      recv x (path ++ "[" ++ toString i ++ "]") ++
        validateListGo recv path (i + 1) rest

/-- The Object.entries(fields).forEach loop of the Object branch: a field
absent from the data yields one MissingField (required and optional
alike); a present field is validated recursively. -/
def validateFieldsGo (recv : JSValue → VType → String → String → Diags)
    (dataKvs : List (String × JSValue)) (path objName : String) :
    List (String × VType) → Diags
  | [] => ∅
  | (fieldKey, ftype) :: rest =>
      let fieldPath := if path = "" then fieldKey else path ++ "." ++ fieldKey
      let here : Diags :=
        match jlookup dataKvs fieldKey with
        | none =>
            ⟨[⟨fieldPath, fieldKey, getTypeString ftype, isRequiredV ftype, objName⟩], [], []⟩
        | some v => recv v ftype fieldPath fieldKey
      here ++ validateFieldsGo recv dataKvs path objName rest

/-- The dataKeys.forEach loop of the Object branch: every data key not
declared on the type yields one ExtraField. -/
def extraFieldsOf (dataKvs : List (String × JSValue))
    (fields : List (String × VType)) (path objName : String) : List ExtraField :=
  (dataKvs.map Prod.fst).filterMap (fun key =>
    if (fields.map Prod.fst).contains key then none
    else some ⟨if path = "" then key else path ++ "." ++ key, key,
      "Field " ++ "\x27" ++ key ++ "\x27 not found in type " ++ "\x27" ++ objName ++ "\x27"⟩)

/-- validateDataAgainstType of schema-validator.ts, with a structural fuel
parameter (the wrapper below instantiates it with sizeOf data; every
recursive call is on a strictly smaller value, so the fuel-0 branch is
never reached from the wrapper).  Null/undefined data yields one
MissingField when the type is NonNull and nothing otherwise; one NonNull
layer is unwrapped; a List type requires an array and recurses on
elements; a scalar or enum named type compares the JS runtime type tag
against the fixed builtin mapping (Int/Float to number, String/ID to
string, Boolean to boolean) and checks nothing for any other name; an
object named type requires a non-array object, reports all absent
declared fields, recurses into present ones, and reports undeclared keys
as extra fields. -/
def vTypeF (env : VSchema) :
    Nat → JSValue → VType → String → String → String → Diags
  | 0, _, _, _, _, _ => ∅
  | Nat.succ fuel, data, type, path, fieldName, parentTypeName =>
      if isNullish data then
        if isRequiredV type then
          ⟨[⟨path, fieldName, getTypeString type, true, parentTypeName⟩], [], []⟩
        else ∅
      else
        let currentType := match type with
          | VType.nonNull t => t
          | t => t
        match currentType with
        | VType.listT inner =>
            match data with
            | JSValue.arr xs =>
                validateListGo
                  (fun x itemPath =>
                    vTypeF env fuel x inner itemPath fieldName parentTypeName)
                  path 0 xs
            | _ => ⟨[], [], [⟨path, fieldName, getTypeString type, getJSType data⟩]⟩
        | _ =>
            match getNamedTypeV currentType with
            | VType.scalarT typeName =>
                if typeName = "Int" ∨ typeName = "Float" then
                  if getJSType data ≠ "number" then
                    ⟨[], [], [⟨path, fieldName, typeName, getJSType data⟩]⟩
                  else ∅
                else if typeName = "String" ∨ typeName = "ID" then
                  if getJSType data ≠ "string" then
                    ⟨[], [], [⟨path, fieldName, typeName, getJSType data⟩]⟩
                  else ∅
                else if typeName = "Boolean" then
                  if getJSType data ≠ "boolean" then
                    ⟨[], [], [⟨path, fieldName, typeName, getJSType data⟩]⟩
                  else ∅
                else ∅
            | VType.enumT typeName =>
                if typeName = "Int" ∨ typeName = "Float" then
                  if getJSType data ≠ "number" then
                    ⟨[], [], [⟨path, fieldName, typeName, getJSType data⟩]⟩
                  else ∅
                else if typeName = "String" ∨ typeName = "ID" then
                  if getJSType data ≠ "string" then
                    ⟨[], [], [⟨path, fieldName, typeName, getJSType data⟩]⟩
                  else ∅
                else if typeName = "Boolean" then
                  if getJSType data ≠ "boolean" then
                    ⟨[], [], [⟨path, fieldName, typeName, getJSType data⟩]⟩
                  else ∅
                else ∅
            | VType.objectT objName =>
                match data with
                | JSValue.obj kvs =>
                    let fields := objFieldsOf env objName
                    validateFieldsGo
                      (fun v ftype fieldPath fieldKey =>
                        vTypeF env fuel v ftype fieldPath fieldKey objName)
                      kvs path objName fields ++
                      ⟨[], extraFieldsOf kvs fields path objName, []⟩
                | _ => ⟨[], [], [⟨path, fieldName, objName, getJSType data⟩]⟩
            | _ => ∅

/-- validateDataAgainstType of the source: recursion is structural on the
data value, so sizeOf data bounds its depth and the fuel never runs out. -/
def validateDataAgainstType (env : VSchema) (data : JSValue) (type : VType)
    (path fieldName parentTypeName : String) : Diags :=
  vTypeF env (jsSize data) data type path fieldName parentTypeName

/-- validateDataAgainstSchema of schema-validator.ts.  Building the schema
from SDL text is the external collaborator capability; the embedding takes
the built environment.  A missing root type or a non-object root type is
an error (thrown in JS, rewrapped by its catch); data diagnostics are
returned in the structured result with
valid := missing.isEmpty and typeErrors.isEmpty. -/
def validateDataAgainstSchema (env : VSchema) (data : JSValue)
    (typeName : String) : Except String ValidationResult :=
  match getTypeD env typeName with
  | none =>
      Except.error ("Schema validation failed: Type " ++ "\x27" ++ typeName ++
        "\x27 not found in schema")
  | some d =>
      if d.isObjectD then
        let r := validateDataAgainstType env data (VType.objectT typeName) ""
          typeName typeName
        Except.ok
          ⟨r.missing.isEmpty && r.typeErrors.isEmpty, r.missing, r.extra, r.typeErrors⟩
      else
        Except.error ("Schema validation failed: Type " ++ "\x27" ++ typeName ++
          "\x27 is not an object type")

/-! ## Invariants of the fragment registry -/

/-- The fragment name the registry hands out for the i-th (0-based)
distinct signature of a type name: the bare name first, then the variant
names numbered from 2. -/
def expectedFragName (n : String) (i : Nat) : String :=
  if i = 0 then n ++ "Fragment" else n ++ "Fragment_" ++ toString (i + 1)

/-- The registry entries recorded for a type name (empty when the name was
never seen). -/
def entriesOf (st : GenState) (n : String) : List (String × String) :=
  (lookupKV st.cache n).getD []

/-- Shape invariant of the registry for one type name: the counter equals
the number of entries, entries exist once the name is cached, the i-th
entry carries the i-th expected fragment name, and no two entries share a
signature. -/
def RegistryOK (st : GenState) (n : String) : Prop :=
  ∀ l, lookupKV st.cache n = some l →
    lookupKV st.counters n = some l.length ∧ l ≠ [] ∧
    l.map Prod.snd = (List.range l.length).map (expectedFragName n) ∧
    (l.map Prod.fst).Nodup

/-- Outside of an in-flight synthesis of the name itself (the name not in
the visited set), every registered fragment name is a key of the fragments
Record. -/
def FragsOK (st : GenState) (n : String) (visited : List String) : Prop :=
  n ∉ visited → ∀ e ∈ entriesOf st n, containsKey st.fragments e.2 = true

/-- All signatures registered for the name satisfy P. -/
def SigsOK (P : String → Prop) (st : GenState) (n : String) : Prop :=
  ∀ e ∈ entriesOf st n, P e.1

/-- State growth: fragment keys and registry entries for the name are
never removed. -/
def StMono (st st2 : GenState) (n : String) : Prop :=
  (∀ k, containsKey st.fragments k = true → containsKey st2.fragments k = true) ∧
  (∀ e ∈ entriesOf st n, e ∈ entriesOf st2 n)

/-- Hypothesis bundle threaded through the synthesis recursion. -/
def CFHyp (n : String) (P : String → Prop) (visited : List String)
    (st : GenState) : Prop :=
  RegistryOK st n ∧ FragsOK st n visited ∧ SigsOK P st n

/-- Conclusion bundle of the preservation lemma: the invariants hold again
afterwards, the state only grew, and the registry entry of a visited name is
untouched. -/
def CFConcl (n : String) (P : String → Prop) (visited : List String)
    (st st2 : GenState) : Prop :=
  RegistryOK st2 n ∧ FragsOK st2 n visited ∧ SigsOK P st2 n ∧ StMono st st2 n ∧
  (n ∈ visited → lookupKV st2.cache n = lookupKV st.cache n)

instance : IsTotal String (fun a b => strLe a b = true) :=
  ⟨by
    have key : ∀ x y : List Char, charListLe x y = true ∨ charListLe y x = true := by
      intro x
      induction x with
      | nil => intro y; left; rfl
      | cons a as ih =>
          intro y
          cases y with
          | nil => right; rfl
          | cons b bs =>
              have ec : ∀ (p q : Char) (ps qs : List Char), charListLe (p :: ps) (q :: qs) =
                  (if p.toNat < q.toNat then true
                   else if q.toNat < p.toNat then false else charListLe ps qs) :=
                fun _ _ _ _ => rfl
              rcases Nat.lt_trichotomy a.toNat b.toNat with h | h | h
              · left; rw [ec, if_pos h]
              · have hab : ¬ a.toNat < b.toNat := by omega
                have hba : ¬ b.toNat < a.toNat := by omega
                rcases ih bs with h2 | h2
                · left; rw [ec, if_neg hab, if_neg hba]; exact h2
                · right; rw [ec, if_neg hba, if_neg hab]; exact h2
              · right; rw [ec, if_pos h]
    intro a b
    exact key a.data b.data⟩

instance : IsTrans String (fun a b => strLe a b = true) :=
  ⟨by
    have key : ∀ x y z : List Char, charListLe x y = true → charListLe y z = true →
        charListLe x z = true := by
      intro x
      induction x with
      | nil => intro y z _ _; rfl
      | cons a as ih =>
          intro y z hxy hyz
          cases y with
          | nil => exact absurd hxy (by simp [charListLe])
          | cons b bs =>
              cases z with
              | nil => exact absurd hyz (by simp [charListLe])
              | cons c cs =>
                  have ec : ∀ (p q : Char) (ps qs : List Char), charListLe (p :: ps) (q :: qs) =
                      (if p.toNat < q.toNat then true
                       else if q.toNat < p.toNat then false else charListLe ps qs) :=
                    fun _ _ _ _ => rfl
                  rw [ec] at hxy hyz ⊢
                  by_cases hba : b.toNat < a.toNat
                  · rw [if_neg (by omega : ¬ a.toNat < b.toNat), if_pos hba] at hxy
                    cases hxy
                  · by_cases hcb : c.toNat < b.toNat
                    · rw [if_neg (by omega : ¬ b.toNat < c.toNat), if_pos hcb] at hyz
                      cases hyz
                    · by_cases hab : a.toNat < b.toNat
                      · by_cases hbc : b.toNat < c.toNat
                        · rw [if_pos (by omega : a.toNat < c.toNat)]
                        · have hbc2 : b.toNat = c.toNat := by omega
                          rw [if_pos (by omega : a.toNat < c.toNat)]
                      · have hab2 : a.toNat = b.toNat := by omega
                        by_cases hbc : b.toNat < c.toNat
                        · rw [if_pos (by omega : a.toNat < c.toNat)]
                        · have hbc2 : b.toNat = c.toNat := by omega
                          rw [if_neg hab, if_neg hba] at hxy
                          rw [if_neg hbc, if_neg hcb] at hyz
                          rw [if_neg (by omega : ¬ a.toNat < c.toNat),
                            if_neg (by omega : ¬ c.toNat < a.toNat)]
                          exact ih bs cs hxy hyz
    intro a b c
    exact key a.data b.data c.data⟩

instance : IsAntisymm String (fun a b => strLe a b = true) :=
  ⟨by
    have key : ∀ x y : List Char, charListLe x y = true → charListLe y x = true → x = y := by
      intro x
      induction x with
      | nil =>
          intro y _ hyx
          cases y with
          | nil => rfl
          | cons b bs => exact absurd hyx (by simp [charListLe])
      | cons a as ih =>
          intro y hxy hyx
          cases y with
          | nil => exact absurd hxy (by simp [charListLe])
          | cons b bs =>
              have ec : ∀ (p q : Char) (ps qs : List Char), charListLe (p :: ps) (q :: qs) =
                  (if p.toNat < q.toNat then true
                   else if q.toNat < p.toNat then false else charListLe ps qs) :=
                fun _ _ _ _ => rfl
              rw [ec] at hxy hyx
              by_cases hab : a.toNat < b.toNat
              · rw [if_neg (by omega : ¬ b.toNat < a.toNat), if_pos hab] at hyx
                cases hyx
              · by_cases hba : b.toNat < a.toNat
                · rw [if_neg hab, if_pos hba] at hxy
                  cases hxy
                · have hval : a.toNat = b.toNat := by omega
                  have hchar : a = b := Char.ext (UInt32.ext hval)
                  rw [if_neg hab, if_neg hba] at hxy
                  rw [if_neg hba, if_neg hab] at hyx
                  rw [hchar, ih bs hxy hyx]
    intro a b hab hba
    have hd := key a.data b.data hab hba
    cases a; cases b
    simp only [String.data] at hd
    simp [hd]⟩

/-! ## Concrete instances used by the claims -/

/-- The builtin String scalar reference. -/
def tString : TypeRef := TypeRef.base "SCALAR" "String"

/-- An Address definition whose street field is a non-null String. -/
def c1AddrA : TypeDef := ⟨"Address", "OBJECT", some [⟨"street", TypeRef.nonNull tString⟩]⟩

/-- A second Address definition with a different field set (street is a
String list), but the same detailed signature. -/
def c1AddrB : TypeDef := ⟨"Address", "OBJECT", some [⟨"street", TypeRef.listT tString⟩]⟩

/-- A schema with two same-named Address definitions whose field sets
differ while their detailed signatures coincide. -/
def c1Schema : Schema := ⟨[c1AddrA, c1AddrB]⟩

/-- An Address definition with two fields. -/
def c1AddrC : TypeDef := ⟨"Address", "OBJECT", some [⟨"street", tString⟩, ⟨"city", tString⟩]⟩

/-- A schema with two same-named Address definitions of genuinely
different signatures. -/
def c1SchemaW : Schema := ⟨[c1AddrA, c1AddrC]⟩

/-- The same two fields declared in the opposite order. -/
def c3AddrB : TypeDef := ⟨"Address", "OBJECT", some [⟨"city", tString⟩, ⟨"street", tString⟩]⟩

/-- A schema with two same-named Address definitions with identical field
sets declared in different orders. -/
def c3Schema : Schema := ⟨[c1AddrC, c3AddrB]⟩

/-- A schema with one self-referential object type A whose second field
names a type that does not resolve. -/
def c4SchemaA : Schema :=
  ⟨[⟨"A", "OBJECT", some [⟨"self", TypeRef.base "OBJECT" "A"⟩,
      ⟨"m", TypeRef.base "OBJECT" "Missing"⟩]⟩]⟩

/-- A validator environment with a self-referential object type A. -/
def c7Env : VSchema :=
  [NamedDef.objectD "A" [("a", VType.objectT "A"), ("x", VType.nonNull (VType.scalarT "Int"))],
   NamedDef.scalarD "Int"]

/-- Data nested three A-levels deep. -/
def c7Data : JSValue := JSValue.obj [("a", JSValue.obj [("a", JSValue.obj [])])]

/-- A validator environment with an enum-typed field. -/
def c8Env : VSchema :=
  [NamedDef.objectD "User" [("c", VType.enumT "Color")], NamedDef.enumD "Color"]

/-- A number where the enum field expects an enum value. -/
def c8Data : JSValue := JSValue.obj [("c", JSValue.num 42)]

/-- A small User environment for the validator claims. -/
def c2Env : VSchema :=
  [NamedDef.objectD "User" [("id", VType.nonNull (VType.scalarT "ID")),
      ("name", VType.scalarT "String")],
   NamedDef.scalarD "ID", NamedDef.scalarD "String"]

/-- Valid User data carrying one undeclared extra key. -/
def c2Data : JSValue :=
  JSValue.obj [("id", JSValue.str "1"), ("name", JSValue.str "Ann"),
    ("nickname", JSValue.str "Bo")]

/-! ## Association-list lemmas -/

theorem lookupKV_setKV_self {α : Type} (m : List (String × α)) (k : String) (v : α) :
    lookupKV (setKV m k v) k = some v := by
  induction m with
  | nil => simp [setKV, lookupKV]
  | cons e rest ih =>
      obtain ⟨k0, v0⟩ := e
      by_cases h : k0 = k
      · simp [setKV, h, lookupKV]
      · simp [setKV, h, lookupKV, ih]

theorem lookupKV_setKV_ne {α : Type} (m : List (String × α)) (k k2 : String) (v : α)
    (h : k ≠ k2) : lookupKV (setKV m k v) k2 = lookupKV m k2 := by
  induction m with
  | nil => simp [setKV, lookupKV, h]
  | cons e rest ih =>
      obtain ⟨k0, v0⟩ := e
      by_cases h0 : k0 = k
      · subst h0
        simp [setKV, lookupKV, h]
      · simp [setKV, h0, lookupKV, ih]

theorem containsKey_setKV {α : Type} (m : List (String × α)) (k k2 : String) (v : α)
    (h : containsKey m k2 = true) : containsKey (setKV m k v) k2 = true := by
  by_cases hk : k = k2
  · subst hk
    simp [containsKey, lookupKV_setKV_self]
  · simpa [containsKey, lookupKV_setKV_ne m k k2 v hk] using h

theorem containsKey_setKV_self {α : Type} (m : List (String × α)) (k : String) (v : α) :
    containsKey (setKV m k v) k = true := by
  simp [containsKey, lookupKV_setKV_self]

/-! ## Signature determinism under field reordering -/

theorem sortStrings_perm (l1 l2 : List String) (h : l1.Perm l2) :
    sortStrings l1 = sortStrings l2 := by
  unfold sortStrings
  exact List.eq_of_perm_of_sorted
    ((List.perm_insertionSort (fun a b => strLe a b = true) l1).trans
      (h.trans (List.perm_insertionSort (fun a b => strLe a b = true) l2).symm))
    (List.sorted_insertionSort (fun a b => strLe a b = true) l1)
    (List.sorted_insertionSort (fun a b => strLe a b = true) l2)

theorem mkSig_perm (n : String) (l1 l2 : List FieldDef) (h : l1.Perm l2) :
    mkSig n l1 = mkSig n l2 := by
  unfold mkSig
  rw [sortStrings_perm (sigTokens l1) (sigTokens l2) (h.map _)]

/-! ## State-evolution helpers -/

theorem StMono_refl (st : GenState) (n : String) : StMono st st n :=
  ⟨fun _ h => h, fun _ h => h⟩

theorem StMono_trans {st1 st2 st3 : GenState} {n : String}
    (h1 : StMono st1 st2 n) (h2 : StMono st2 st3 n) : StMono st1 st3 n :=
  ⟨fun k hk => h2.1 k (h1.1 k hk), fun e he => h2.2 e (h1.2 e he)⟩

theorem CFConcl_refl (n : String) (P : String → Prop) (visited : List String)
    (st : GenState) (h : CFHyp n P visited st) : CFConcl n P visited st st :=
  ⟨h.1, h.2.1, h.2.2, StMono_refl st n, fun _ => rfl⟩

theorem CFConcl_trans {n : String} {P : String → Prop} {visited : List String}
    {st1 st2 st3 : GenState} (h1 : CFConcl n P visited st1 st2)
    (h2 : CFConcl n P visited st2 st3) : CFConcl n P visited st1 st3 :=
  ⟨h2.1, h2.2.1, h2.2.2.1, StMono_trans h1.2.2.2.1 h2.2.2.2.1,
    fun hv => (h2.2.2.2.2 hv).trans (h1.2.2.2.2 hv)⟩

theorem CFHyp_of_concl {n : String} {P : String → Prop} {visited : List String}
    {st1 st2 : GenState} (h : CFConcl n P visited st1 st2) : CFHyp n P visited st2 :=
  ⟨h.1, h.2.1, h.2.2.1⟩

/-! ## findOrCreateFragmentName case analysis -/

theorem foc_eq_first (st : GenState) (tn sig : String)
    (hc : lookupKV st.cache tn = none) :
    findOrCreateFragmentName st tn sig =
      (tn ++ "Fragment",
        { st with
            cache := setKV st.cache tn [(sig, tn ++ "Fragment")],
            counters := setKV st.counters tn 1 }) := by
  unfold findOrCreateFragmentName
  rw [hc]

theorem foc_eq_found (st : GenState) (tn sig : String) (cached : List (String × String))
    (e : String × String) (hc : lookupKV st.cache tn = some cached)
    (hf : cached.find? (fun x => x.1 == sig) = some e) :
    findOrCreateFragmentName st tn sig = (e.2, st) := by
  unfold findOrCreateFragmentName
  rw [hc]
  simp only [hf]

theorem foc_eq_variant (st : GenState) (tn sig : String) (cached : List (String × String))
    (hc : lookupKV st.cache tn = some cached)
    (hf : cached.find? (fun x => x.1 == sig) = none) :
    findOrCreateFragmentName st tn sig =
      (tn ++ "Fragment_" ++ toString ((lookupKV st.counters tn).getD 1 + 1),
        { st with
            counters := setKV st.counters tn ((lookupKV st.counters tn).getD 1 + 1),
            cache := setKV st.cache tn
              (cached ++ [(sig, tn ++ "Fragment_" ++ toString ((lookupKV st.counters tn).getD 1 + 1))]) }) := by
  unfold findOrCreateFragmentName
  rw [hc]
  simp only [hf]

theorem foc_other (st : GenState) (tn sig n : String) (h : tn ≠ n) :
    lookupKV (findOrCreateFragmentName st tn sig).2.cache n = lookupKV st.cache n ∧
    lookupKV (findOrCreateFragmentName st tn sig).2.counters n = lookupKV st.counters n ∧
    (findOrCreateFragmentName st tn sig).2.fragments = st.fragments := by
  cases hc : lookupKV st.cache tn with
  | none =>
      rw [foc_eq_first st tn sig hc]
      exact ⟨lookupKV_setKV_ne _ _ _ _ h, lookupKV_setKV_ne _ _ _ _ h, rfl⟩
  | some cached =>
      cases hf : cached.find? (fun x => x.1 == sig) with
      | some e =>
          rw [foc_eq_found st tn sig cached e hc hf]
          exact ⟨rfl, rfl, rfl⟩
      | none =>
          rw [foc_eq_variant st tn sig cached hc hf]
          exact ⟨lookupKV_setKV_ne _ _ _ _ h, lookupKV_setKV_ne _ _ _ _ h, rfl⟩

theorem foc_self (st : GenState) (n sig : String) (hreg : RegistryOK st n) :
    RegistryOK (findOrCreateFragmentName st n sig).2 n ∧
    (findOrCreateFragmentName st n sig).2.fragments = st.fragments ∧
    ((entriesOf (findOrCreateFragmentName st n sig).2 n = entriesOf st n ∧
      (sig, (findOrCreateFragmentName st n sig).1) ∈ entriesOf st n) ∨
     entriesOf (findOrCreateFragmentName st n sig).2 n =
       entriesOf st n ++ [(sig, (findOrCreateFragmentName st n sig).1)]) := by
  cases hc : lookupKV st.cache n with
  | none =>
      rw [foc_eq_first st n sig hc]
      refine ⟨?_, rfl, Or.inr ?_⟩
      · intro l hl
        simp only [lookupKV_setKV_self] at hl
        cases hl
        refine ⟨by simp [lookupKV_setKV_self], by simp, ?_, by simp⟩
        simp [List.range_succ, expectedFragName]
      · simp [entriesOf, hc, lookupKV_setKV_self]
  | some cached =>
      obtain ⟨hcount, hne, hnames, hnodup⟩ := hreg cached hc
      cases hf : cached.find? (fun x => x.1 == sig) with
      | some e =>
          rw [foc_eq_found st n sig cached e hc hf]
          refine ⟨hreg, rfl, Or.inl ⟨rfl, ?_⟩⟩
          have hmem := List.mem_of_find?_eq_some hf
          have hpred := List.find?_some hf
          have hsig : e.1 = sig := by simpa using hpred
          have hee : (sig, e.2) = e := by
            obtain ⟨e1, e2⟩ := e
            simp only at hsig
            simp [hsig]
          rw [entriesOf, hc]
          simpa [hee] using hmem
      | none =>
          have hlen1 : 1 ≤ cached.length := by
            cases cached with
            | nil => exact absurd rfl hne
            | cons x xs => simp
          have hgetd : (lookupKV st.counters n).getD 1 = cached.length := by
            rw [hcount]; rfl
          rw [foc_eq_variant st n sig cached hc hf]
          refine ⟨?_, rfl, Or.inr ?_⟩
          · intro l hl
            simp only [lookupKV_setKV_self] at hl
            cases hl
            refine ⟨?_, by simp, ?_, ?_⟩
            · rw [lookupKV_setKV_self, hgetd]
              simp
            · rw [hgetd]
              simp only [List.map_append, List.length_append, List.length_cons,
                List.length_nil, List.map_cons, List.map_nil, hnames]
              rw [List.range_succ]
              simp only [List.map_append, List.map_cons, List.map_nil]
              congr 1
              simp only [List.cons.injEq, and_true]
              rw [expectedFragName, if_neg (by omega : ¬ cached.length = 0)]
            · have hnotin : sig ∉ cached.map Prod.fst := by
                intro hmem
                obtain ⟨e, hem, hesig⟩ := List.mem_map.mp hmem
                have := List.find?_eq_none.mp hf e hem
                simp [hesig] at this
              simp [List.nodup_append, hnodup, hnotin]
          · simp only [entriesOf, hc, lookupKV_setKV_self, hgetd]
            rfl

/-! ## Preservation of the registry invariants through synthesis -/

theorem entriesOf_eq_of_lookup {st1 st2 : GenState} {n : String}
    (h : lookupKV st2.cache n = lookupKV st1.cache n) :
    entriesOf st2 n = entriesOf st1 n := by
  unfold entriesOf
  rw [h]

theorem bstep_state (maxD depth : Nat)
    (nested : GenState → String → Option String × GenState)
    (st : GenState) (f : FieldDef) :
    (buildFieldStep maxD depth nested st f).2 = st ∨
    (buildFieldStep maxD depth nested st f).2 = (nested st (getTypeName f.type)).2 := by
  unfold buildFieldStep
  by_cases h1 : isScalarType f.type = true
  · rw [if_pos h1]
    exact Or.inl rfl
  · rw [if_neg h1]
    by_cases h2 : isObjectType f.type = true
    · rw [if_pos h2]
      by_cases h3 : getTypeName f.type ≠ "" ∧ depth < maxD
      · rw [if_pos h3]
        exact Or.inr rfl
      · rw [if_neg h3]
        exact Or.inl rfl
    · rw [if_neg h2]
      exact Or.inl rfl

theorem bstep_inv (n : String) (P : String → Prop) (maxD depth : Nat)
    (vset : List String) (nested : GenState → String → Option String × GenState)
    (Hn : ∀ st2 m, CFHyp n P vset st2 → CFConcl n P vset st2 (nested st2 m).2)
    (st : GenState) (f : FieldDef) (h : CFHyp n P vset st) :
    CFConcl n P vset st (buildFieldStep maxD depth nested st f).2 := by
  rcases bstep_state maxD depth nested st f with he | he
  · rw [he]
    exact CFConcl_refl n P vset st h
  · rw [he]
    exact Hn st (getTypeName f.type) h

theorem bfGo_inv (n : String) (P : String → Prop) (maxD depth : Nat)
    (vset : List String) (nested : GenState → String → Option String × GenState)
    (Hn : ∀ st2 m, CFHyp n P vset st2 → CFConcl n P vset st2 (nested st2 m).2) :
    ∀ (fs : List FieldDef) (st : GenState), CFHyp n P vset st →
      CFConcl n P vset st (buildFieldsGo maxD depth nested st fs).2 := by
  intro fs
  induction fs with
  | nil =>
      intro st h
      exact CFConcl_refl n P vset st h
  | cons f rest ih =>
      intro st h
      have h1 := bstep_inv n P maxD depth vset nested Hn st f h
      have h2 := ih (buildFieldStep maxD depth nested st f).2 (CFHyp_of_concl h1)
      exact CFConcl_trans h1 h2

theorem ccore_eq (maxD depth : Nat)
    (nested : GenState → String → Option String × GenState)
    (st : GenState) (tn : String) (fs : List FieldDef) (fcn : String) (st1 : GenState)
    (hfc : findOrCreateFragmentName st tn (mkSig tn fs) = (fcn, st1)) :
    createFragmentCore maxD depth nested st tn fs =
      (if containsKey st1.fragments fcn then (some fcn, st1)
       else (some fcn,
         { (buildFieldsGo maxD depth nested st1 fs).2 with
             fragments := setKV (buildFieldsGo maxD depth nested st1 fs).2.fragments fcn
               ("fragment " ++ fcn ++ " on " ++ tn ++ " \x7b " ++
                 String.intercalate " " (buildFieldsGo maxD depth nested st1 fs).1 ++
                 " \x7d") })) := by
  unfold createFragmentCore
  rw [hfc]

theorem ccore_inv (n : String) (P : String → Prop) (maxD depth : Nat)
    (visited : List String) (typeName : String) (hvis : typeName ∉ visited)
    (nested : GenState → String → Option String × GenState)
    (Hn : ∀ st2 m, CFHyp n P (typeName :: visited) st2 →
      CFConcl n P (typeName :: visited) st2 (nested st2 m).2)
    (st : GenState) (fs : List FieldDef)
    (hsig : typeName = n → P (mkSig typeName fs))
    (hhyp : CFHyp n P visited st) :
    CFConcl n P visited st (createFragmentCore maxD depth nested st typeName fs).2 ∧
    (typeName = n →
      mkSig n fs ∈
        (entriesOf (createFragmentCore maxD depth nested st typeName fs).2 n).map Prod.fst) := by
  obtain ⟨hreg, hfrag, hsigs⟩ := hhyp
  rcases hfc : findOrCreateFragmentName st typeName (mkSig typeName fs) with ⟨fcn, st1⟩
  rw [ccore_eq maxD depth nested st typeName fs fcn st1 hfc]
  by_cases hn : typeName = n
  · subst hn
    have hfoc := foc_self st typeName (mkSig typeName fs) hreg
    rw [hfc] at hfoc
    obtain ⟨hreg1, hfragEq, hdisj⟩ := hfoc
    have hmemfc : (mkSig typeName fs, fcn) ∈ entriesOf st1 typeName := by
      rcases hdisj with ⟨he, hm⟩ | he
      · rw [he]; exact hm
      · rw [he]; exact List.mem_append_right _ (by simp)
    have hents1 : ∀ e ∈ entriesOf st typeName, e ∈ entriesOf st1 typeName := by
      intro e he
      rcases hdisj with ⟨heq, _⟩ | heq
      · rw [heq]; exact he
      · rw [heq]; exact List.mem_append_left _ he
    have hsigs1 : SigsOK P st1 typeName := by
      intro e he
      rcases hdisj with ⟨heq, _⟩ | heq
      · rw [heq] at he; exact hsigs e he
      · rw [heq] at he
        rcases List.mem_append.mp he with h1 | h1
        · exact hsigs e h1
        · simp only [List.mem_singleton] at h1
          rw [h1]
          exact hsig rfl
    have hhyp1 : CFHyp typeName P (typeName :: visited) st1 :=
      ⟨hreg1, fun hnv => absurd (List.mem_cons_self _ _) hnv, hsigs1⟩
    cases hck : containsKey st1.fragments fcn with
    | true =>
        rw [if_pos rfl]
        refine ⟨⟨hreg1, ?_, hsigs1, ⟨?_, hents1⟩, ?_⟩, ?_⟩
        · intro hnv e he
          rw [hfragEq]
          rcases hdisj with ⟨heq, _⟩ | heq
          · rw [heq] at he; exact hfrag hnv e he
          · rw [heq] at he
            rcases List.mem_append.mp he with h1 | h1
            · exact hfrag hnv e h1
            · simp only [List.mem_singleton] at h1
              rw [h1]
              rw [hfragEq] at hck
              exact hck
        · intro k hk
          rw [hfragEq]
          exact hk
        · intro hnv
          exact absurd hnv hvis
        · intro _
          exact List.mem_map.mpr ⟨_, hmemfc, rfl⟩
    | false =>
        rw [if_neg (by simp)]
        have hbf := bfGo_inv typeName P maxD depth (typeName :: visited) nested Hn fs st1 hhyp1
        have hcacheEq := hbf.2.2.2.2 (List.mem_cons_self _ _)
        have hents2 : entriesOf (buildFieldsGo maxD depth nested st1 fs).2 typeName =
            entriesOf st1 typeName := entriesOf_eq_of_lookup hcacheEq
        refine ⟨⟨?_, ?_, ?_, ⟨?_, ?_⟩, ?_⟩, ?_⟩
        · intro l hl
          exact hbf.1 l hl
        · intro hnv e he
          have he2 : e ∈ entriesOf st1 typeName := by
            rw [← hents2]; exact he
          have hkey : containsKey (buildFieldsGo maxD depth nested st1 fs).2.fragments e.2 = true ∨ e.2 = fcn := by
            rcases hdisj with ⟨heq, _⟩ | heq
            · rw [heq] at he2
              have h0 := hfrag hnv e he2
              have h1 : containsKey st1.fragments e.2 = true := by rw [hfragEq]; exact h0
              exact Or.inl (hbf.2.2.2.1.1 e.2 h1)
            · rw [heq] at he2
              rcases List.mem_append.mp he2 with h1 | h1
              · have h0 := hfrag hnv e h1
                have h2 : containsKey st1.fragments e.2 = true := by rw [hfragEq]; exact h0
                exact Or.inl (hbf.2.2.2.1.1 e.2 h2)
              · simp only [List.mem_singleton] at h1
                rw [h1]
                exact Or.inr rfl
          rcases hkey with hk | hk
          · exact containsKey_setKV _ _ _ _ hk
          · rw [hk]
            exact containsKey_setKV_self _ _ _
        · intro e he
          have he2 : e ∈ entriesOf st1 typeName := by
            rw [← hents2]; exact he
          exact hsigs1 e he2
        · intro k hk
          have h1 : containsKey st1.fragments k = true := by rw [hfragEq]; exact hk
          exact containsKey_setKV _ _ _ _ (hbf.2.2.2.1.1 k h1)
        · intro e he
          show e ∈ entriesOf (buildFieldsGo maxD depth nested st1 fs).2 typeName
          rw [hents2]
          exact hents1 e he
        · intro hnv
          exact absurd hnv hvis
        · intro _
          refine List.mem_map.mpr ⟨(mkSig typeName fs, fcn), ?_, rfl⟩
          show (mkSig typeName fs, fcn) ∈ entriesOf (buildFieldsGo maxD depth nested st1 fs).2 typeName
          rw [hents2]
          exact hmemfc
  · have hother := foc_other st typeName (mkSig typeName fs) n hn
    rw [hfc] at hother
    have hreg1 : RegistryOK st1 n := by
      intro l hl
      rw [hother.1] at hl
      have h0 := hreg l hl
      rw [hother.2.1]
      exact h0
    have hentsEq : entriesOf st1 n = entriesOf st n := entriesOf_eq_of_lookup hother.1
    have hnv_trans : ∀ hnv : n ∉ typeName :: visited, n ∉ visited :=
      fun hnv hv => hnv (List.mem_cons_of_mem _ hv)
    have hnv_back : ∀ hnv : n ∉ visited, n ∉ typeName :: visited := by
      intro hnv hm
      rcases List.mem_cons.mp hm with h | h
      · exact hn h.symm
      · exact hnv h
    have hhyp1 : CFHyp n P (typeName :: visited) st1 := by
      refine ⟨hreg1, ?_, ?_⟩
      · intro hnv e he
        rw [hother.2.2]
        rw [hentsEq] at he
        exact hfrag (hnv_trans hnv) e he
      · intro e he
        rw [hentsEq] at he
        exact hsigs e he
    cases hck : containsKey st1.fragments fcn with
    | true =>
        rw [if_pos rfl]
        refine ⟨⟨hreg1, ?_, ?_, ⟨?_, ?_⟩, ?_⟩, fun hc => absurd hc hn⟩
        · intro hnv e he
          rw [hother.2.2]
          rw [hentsEq] at he
          exact hfrag hnv e he
        · intro e he
          rw [hentsEq] at he
          exact hsigs e he
        · intro k hk
          rw [hother.2.2]
          exact hk
        · intro e he
          rw [hentsEq]
          exact he
        · intro hnv
          exact hother.1
    | false =>
        rw [if_neg (by simp)]
        have hbf := bfGo_inv n P maxD depth (typeName :: visited) nested Hn fs st1 hhyp1
        refine ⟨⟨?_, ?_, ?_, ⟨?_, ?_⟩, ?_⟩, fun hc => absurd hc hn⟩
        · intro l hl
          exact hbf.1 l hl
        · intro hnv e he
          have he2 : e ∈ entriesOf (buildFieldsGo maxD depth nested st1 fs).2 n := he
          have h1 := hbf.2.1 (hnv_back hnv) e he2
          exact containsKey_setKV _ _ _ _ h1
        · intro e he
          exact hbf.2.2.1 e he
        · intro k hk
          have h1 : containsKey st1.fragments k = true := by rw [hother.2.2]; exact hk
          exact containsKey_setKV _ _ _ _ (hbf.2.2.2.1.1 k h1)
        · intro e he
          have h1 : e ∈ entriesOf st1 n := by rw [hentsEq]; exact he
          exact hbf.2.2.2.1.2 e h1
        · intro hnv
          have h1 := hbf.2.2.2.2 (List.mem_cons_of_mem _ hnv)
          show lookupKV (buildFieldsGo maxD depth nested st1 fs).2.cache n = lookupKV st.cache n
          rw [h1, hother.1]

theorem cfF_zero (σ : Schema) (maxD : Nat) (st : GenState) (tn : String)
    (depth : Nat) (visited : List String) (tdu : Option TypeDef) :
    createFragmentF σ maxD 0 st tn depth visited tdu = (none, st) := rfl

theorem cfF_succ_eq (σ : Schema) (maxD fuel : Nat) (st : GenState) (tn : String)
    (depth : Nat) (visited : List String) (tdu : Option TypeDef) :
    createFragmentF σ maxD (fuel + 1) st tn depth visited tdu =
      (if tn = "" ∨ depth > maxD ∨ tn ∈ visited then (none, st)
       else
         match resolveTd σ tdu tn with
         | none => (none, st)
         | some td =>
             match td.fields with
             | none => (none, st)
             | some fs =>
                 createFragmentCore maxD depth
                   (fun st2 ftn =>
                     createFragmentF σ maxD fuel st2 ftn (depth + 1) (tn :: visited) none)
                   st tn fs) := rfl

theorem cfF_succ_guard (σ : Schema) (maxD fuel : Nat) (st : GenState) (tn : String)
    (depth : Nat) (visited : List String) (tdu : Option TypeDef)
    (hg : tn = "" ∨ depth > maxD ∨ tn ∈ visited) :
    createFragmentF σ maxD (fuel + 1) st tn depth visited tdu = (none, st) := by
  rw [cfF_succ_eq, if_pos hg]

theorem cfF_succ_noresolve (σ : Schema) (maxD fuel : Nat) (st : GenState) (tn : String)
    (depth : Nat) (visited : List String) (tdu : Option TypeDef)
    (hg : ¬(tn = "" ∨ depth > maxD ∨ tn ∈ visited))
    (hres : resolveTd σ tdu tn = none) :
    createFragmentF σ maxD (fuel + 1) st tn depth visited tdu = (none, st) := by
  rw [cfF_succ_eq, if_neg hg, hres]

theorem cfF_succ_nofields (σ : Schema) (maxD fuel : Nat) (st : GenState) (tn : String)
    (depth : Nat) (visited : List String) (tdu : Option TypeDef) (td : TypeDef)
    (hg : ¬(tn = "" ∨ depth > maxD ∨ tn ∈ visited))
    (hres : resolveTd σ tdu tn = some td) (hfs : td.fields = none) :
    createFragmentF σ maxD (fuel + 1) st tn depth visited tdu = (none, st) := by
  rw [cfF_succ_eq, if_neg hg, hres]
  show (match td.fields with
    | none => (none, st)
    | some fs =>
        createFragmentCore maxD depth
          (fun st2 ftn => createFragmentF σ maxD fuel st2 ftn (depth + 1) (tn :: visited) none)
          st tn fs) = (none, st)
  rw [hfs]

theorem cfF_succ_core (σ : Schema) (maxD fuel : Nat) (st : GenState) (tn : String)
    (depth : Nat) (visited : List String) (tdu : Option TypeDef) (td : TypeDef)
    (fs : List FieldDef)
    (hg : ¬(tn = "" ∨ depth > maxD ∨ tn ∈ visited))
    (hres : resolveTd σ tdu tn = some td) (hfs : td.fields = some fs) :
    createFragmentF σ maxD (fuel + 1) st tn depth visited tdu =
      createFragmentCore maxD depth
        (fun st2 ftn => createFragmentF σ maxD fuel st2 ftn (depth + 1) (tn :: visited) none)
        st tn fs := by
  rw [cfF_succ_eq, if_neg hg, hres]
  show (match td.fields with
    | none => (none, st)
    | some fs =>
        createFragmentCore maxD depth
          (fun st2 ftn => createFragmentF σ maxD fuel st2 ftn (depth + 1) (tn :: visited) none)
          st tn fs) = _
  rw [hfs]

theorem cfF_inv (σ : Schema) (maxD : Nat) (n : String) (P : String → Prop)
    (HP : ∀ td, td ∈ σ.types → td.name = n → ∀ fs, td.fields = some fs →
      P (mkSig n fs)) :
    ∀ (fuel : Nat) (st : GenState) (typeName : String) (depth : Nat)
      (visited : List String) (tdu : Option TypeDef),
      (∀ td, tdu = some td → td ∈ σ.types ∧ td.name = typeName) →
      CFHyp n P visited st →
      CFConcl n P visited st
        (createFragmentF σ maxD fuel st typeName depth visited tdu).2 ∧
      (∀ td fs, fuel ≠ 0 → typeName = n →
        ¬(typeName = "" ∨ depth > maxD ∨ typeName ∈ visited) →
        resolveTd σ tdu typeName = some td → td.fields = some fs →
        mkSig n fs ∈
          (entriesOf (createFragmentF σ maxD fuel st typeName depth visited tdu).2 n).map
            Prod.fst) := by
  intro fuel
  induction fuel with
  | zero =>
      intro st typeName depth visited tdu htdu hhyp
      rw [cfF_zero]
      exact ⟨CFConcl_refl n P visited st hhyp, fun td fs h0 => absurd rfl h0⟩
  | succ fuel ih =>
      intro st typeName depth visited tdu htdu hhyp
      by_cases hg : typeName = "" ∨ depth > maxD ∨ typeName ∈ visited
      · rw [cfF_succ_guard σ maxD fuel st typeName depth visited tdu hg]
        exact ⟨CFConcl_refl n P visited st hhyp,
          fun td fs _ _ hng => absurd hg hng⟩
      · cases hres : resolveTd σ tdu typeName with
        | none =>
            rw [cfF_succ_noresolve σ maxD fuel st typeName depth visited tdu hg hres]
            refine ⟨CFConcl_refl n P visited st hhyp, ?_⟩
            intro td fs _ _ _ hr _
            cases hr
        | some td =>
            cases hfs : td.fields with
            | none =>
                rw [cfF_succ_nofields σ maxD fuel st typeName depth visited tdu td hg hres hfs]
                refine ⟨CFConcl_refl n P visited st hhyp, ?_⟩
                intro td2 fs2 _ _ _ hr hf2
                cases hr
                rw [hfs] at hf2
                cases hf2
            | some fs =>
                rw [cfF_succ_core σ maxD fuel st typeName depth visited tdu td fs hg hres hfs]
                have hvis : typeName ∉ visited := by
                  intro hv
                  exact hg (Or.inr (Or.inr hv))
                have Hn : ∀ st2 m, CFHyp n P (typeName :: visited) st2 →
                    CFConcl n P (typeName :: visited) st2
                      ((fun st3 ftn =>
                        createFragmentF σ maxD fuel st3 ftn (depth + 1)
                          (typeName :: visited) none) st2 m).2 := by
                  intro st2 m h2
                  exact (ih st2 m (depth + 1) (typeName :: visited) none
                    (fun td2 h => by cases h) h2).1
                have hname : typeName = n → td.name = n ∧ td ∈ σ.types := by
                  intro he
                  cases htd : tdu with
                  | some td0 =>
                      have h1 := htdu td0 htd
                      rw [htd] at hres
                      simp only [resolveTd] at hres
                      cases hres
                      exact ⟨h1.2.trans he, h1.1⟩
                  | none =>
                      rw [htd] at hres
                      simp only [resolveTd] at hres
                      have hmem := List.mem_of_find?_eq_some hres
                      have hpred := List.find?_some hres
                      have hn2 : td.name = typeName := by simpa using hpred
                      exact ⟨hn2.trans he, hmem⟩
                have hsig : typeName = n → P (mkSig typeName fs) := by
                  intro he
                  have h1 := hname he
                  have h2 := HP td h1.2 h1.1 fs hfs
                  rw [he]
                  exact h2
                have hcore := ccore_inv n P maxD depth visited typeName hvis
                  (fun st2 ftn =>
                    createFragmentF σ maxD fuel st2 ftn (depth + 1)
                      (typeName :: visited) none)
                  Hn st fs hsig hhyp
                refine ⟨hcore.1, ?_⟩
                intro td2 fs2 _ he _ hr hf2
                cases hr
                rw [hfs] at hf2
                cases hf2
                exact hcore.2 he

/-! ## The top-level generateFragments loop -/

theorem CFHyp_init (n : String) (P : String → Prop) : CFHyp n P [] initState := by
  refine ⟨?_, ?_, ?_⟩
  · intro l hl
    cases hl
  · intro _ e he
    simp [entriesOf, initState, lookupKV] at he
  · intro e he
    simp [entriesOf, initState, lookupKV] at he

theorem genStep_inv (σ : Schema) (maxD : Nat) (n : String) (P : String → Prop)
    (HP : ∀ td, td ∈ σ.types → td.name = n → ∀ fs, td.fields = some fs →
      P (mkSig n fs))
    (st : GenState) (t : TypeDef) (ht : t ∈ σ.types) (hhyp : CFHyp n P [] st) :
    CFConcl n P [] st (generateStep σ maxD st t) := by
  unfold generateStep
  by_cases hk : (t.kind == "OBJECT") = true
  · rw [if_pos hk]
    cases hfs : t.fields with
    | none => exact CFConcl_refl n P [] st hhyp
    | some fs =>
        show CFConcl n P [] st
          (if fs.length > 0 then (createFragment σ maxD st t.name 0 [] (some t)).2 else st)
        by_cases hlen : fs.length > 0
        · rw [if_pos hlen]
          unfold createFragment
          exact (cfF_inv σ maxD n P HP (maxD + 1 - 0) st t.name 0 [] (some t)
            (fun td h => by cases h; exact ⟨ht, rfl⟩) hhyp).1
        · rw [if_neg hlen]
          exact CFConcl_refl n P [] st hhyp
  · rw [if_neg hk]
    exact CFConcl_refl n P [] st hhyp

theorem genFold_inv (σ : Schema) (maxD : Nat) (n : String) (P : String → Prop)
    (HP : ∀ td, td ∈ σ.types → td.name = n → ∀ fs, td.fields = some fs →
      P (mkSig n fs)) :
    ∀ (l : List TypeDef) (st : GenState), (∀ t ∈ l, t ∈ σ.types) →
      CFHyp n P [] st →
      CFConcl n P [] st (l.foldl (generateStep σ maxD) st) := by
  intro l
  induction l with
  | nil =>
      intro st _ hhyp
      exact CFConcl_refl n P [] st hhyp
  | cons t rest ih =>
      intro st hsub hhyp
      have h1 := genStep_inv σ maxD n P HP st t (hsub t (List.mem_cons_self t rest)) hhyp
      have h2 := ih (generateStep σ maxD st t)
        (fun t2 h => hsub t2 (List.mem_cons_of_mem t h)) (CFHyp_of_concl h1)
      exact CFConcl_trans h1 h2

theorem genStep_sig (σ : Schema) (maxD : Nat) (n : String) (P : String → Prop)
    (HP : ∀ td, td ∈ σ.types → td.name = n → ∀ fs, td.fields = some fs →
      P (mkSig n fs))
    (st : GenState) (t : TypeDef) (ht : t ∈ σ.types) (hhyp : CFHyp n P [] st)
    (fsA : List FieldDef) (hk : t.kind = "OBJECT") (hfs : t.fields = some fsA)
    (hne : fsA ≠ []) (hname : t.name = n) (hn0 : n ≠ "") :
    mkSig n fsA ∈ (entriesOf (generateStep σ maxD st t) n).map Prod.fst := by
  unfold generateStep
  rw [if_pos (by simp [hk] : (t.kind == "OBJECT") = true), hfs]
  show mkSig n fsA ∈ (entriesOf
    (if fsA.length > 0 then (createFragment σ maxD st t.name 0 [] (some t)).2 else st) n).map
      Prod.fst
  rw [if_pos (by cases fsA with | nil => exact absurd rfl hne | cons x xs => simp)]
  unfold createFragment
  have hpres := (cfF_inv σ maxD n P HP (maxD + 1 - 0) st t.name 0 [] (some t)
    (fun td h => by cases h; exact ⟨ht, rfl⟩) hhyp).2
  refine hpres t fsA (by simp) hname ?_ ?_ hfs
  · intro hcontra
    rcases hcontra with h | h | h
    · exact hn0 (hname ▸ h)
    · omega
    · cases h
  · simp [resolveTd]

theorem genFold_sig (σ : Schema) (maxD : Nat) (n : String) (P : String → Prop)
    (HP : ∀ td, td ∈ σ.types → td.name = n → ∀ fs, td.fields = some fs →
      P (mkSig n fs)) :
    ∀ (l : List TypeDef) (st : GenState), (∀ t ∈ l, t ∈ σ.types) →
      CFHyp n P [] st →
      ∀ (A : TypeDef) (fsA : List FieldDef), A ∈ l → A.kind = "OBJECT" →
        A.fields = some fsA → fsA ≠ [] → A.name = n → n ≠ "" →
        mkSig n fsA ∈ (entriesOf (l.foldl (generateStep σ maxD) st) n).map Prod.fst := by
  intro l
  induction l with
  | nil =>
      intro st _ _ A fsA hA
      cases hA
  | cons t rest ih =>
      intro st hsub hhyp A fsA hA hk hfs hne hname hn0
      have hstep := genStep_inv σ maxD n P HP st t (hsub t (List.mem_cons_self t rest)) hhyp
      rcases List.mem_cons.mp hA with h | h
      · subst h
        have hsig1 := genStep_sig σ maxD n P HP st A
          (hsub A (List.mem_cons_self A rest)) hhyp fsA hk hfs hne hname hn0
        obtain ⟨e, he, hesig⟩ := List.mem_map.mp hsig1
        have hconcl := genFold_inv σ maxD n P HP rest (generateStep σ maxD st A)
          (fun t2 h2 => hsub t2 (List.mem_cons_of_mem A h2)) (CFHyp_of_concl hstep)
        exact List.mem_map.mpr ⟨e, hconcl.2.2.2.1.2 e he, hesig⟩
      · exact ih (generateStep σ maxD st t)
          (fun t2 h2 => hsub t2 (List.mem_cons_of_mem t h2)) (CFHyp_of_concl hstep)
          A fsA h hk hfs hne hname hn0

/-! ## Extracting the claims from the final state -/

theorem final_state_concl (σ : Schema) (maxD : Nat) (n : String) (P : String → Prop)
    (HP : ∀ td, td ∈ σ.types → td.name = n → ∀ fs, td.fields = some fs →
      P (mkSig n fs)) :
    CFConcl n P [] initState (generateFragmentsState σ maxD) :=
  genFold_inv σ maxD n P HP σ.types initState (fun _ h => h) (CFHyp_init n P)

theorem final_state_sig (σ : Schema) (maxD : Nat) (n : String) (P : String → Prop)
    (HP : ∀ td, td ∈ σ.types → td.name = n → ∀ fs, td.fields = some fs →
      P (mkSig n fs))
    (A : TypeDef) (fsA : List FieldDef) (hA : A ∈ σ.types) (hk : A.kind = "OBJECT")
    (hfs : A.fields = some fsA) (hne : fsA ≠ []) (hname : A.name = n) (hn0 : n ≠ "") :
    mkSig n fsA ∈ (entriesOf (generateFragmentsState σ maxD) n).map Prod.fst :=
  genFold_sig σ maxD n P HP σ.types initState (fun _ h => h) (CFHyp_init n P)
    A fsA hA hk hfs hne hname hn0

theorem name_present_of_entries (st : GenState) (n : String) (visited : List String)
    (hfrag : FragsOK st n visited) (hnv : n ∉ visited) (name : String)
    (hname : name ∈ (entriesOf st n).map Prod.snd) :
    containsKey st.fragments name = true := by
  obtain ⟨e, he, heq⟩ := List.mem_map.mp hname
  have h1 := hfrag hnv e he
  rw [← heq]
  exact h1

theorem expected_mem_of_lt (st : GenState) (n : String) (hreg : RegistryOK st n)
    (l : List (String × String)) (hl : lookupKV st.cache n = some l)
    (i : Nat) (hi : i < l.length) :
    expectedFragName n i ∈ (entriesOf st n).map Prod.snd := by
  obtain ⟨_, _, hmap, _⟩ := hreg l hl
  rw [entriesOf, hl]
  show expectedFragName n i ∈ l.map Prod.snd
  rw [hmap]
  exact List.mem_map.mpr ⟨i, List.mem_range.mpr hi, rfl⟩

theorem length_two_of_distinct (l : List (String × String)) (sA sB : String)
    (hA : sA ∈ l.map Prod.fst) (hB : sB ∈ l.map Prod.fst) (hne : sA ≠ sB) :
    2 ≤ l.length := by
  cases l with
  | nil => simp at hA
  | cons e rest =>
      cases rest with
      | nil =>
          simp only [List.map_cons, List.map_nil, List.mem_singleton] at hA hB
          exact absurd (hA.trans hB.symm) hne
      | cons e2 rest2 => simp

theorem bare_present (σ : Schema) (maxD : Nat) (A : TypeDef) (fsA : List FieldDef)
    (hA : A ∈ σ.types) (hk : A.kind = "OBJECT") (hfs : A.fields = some fsA)
    (hne : fsA ≠ []) (hn0 : A.name ≠ "") :
    containsKey (generateFragments σ maxD) (A.name ++ "Fragment") = true := by
  have HP : ∀ td, td ∈ σ.types → td.name = A.name → ∀ fs, td.fields = some fs →
      (fun _ => True) (mkSig A.name fs) := fun _ _ _ _ _ => trivial
  have hconcl := final_state_concl σ maxD A.name (fun _ => True) HP
  have hsig := final_state_sig σ maxD A.name (fun _ => True) HP A fsA hA hk hfs hne rfl hn0
  obtain ⟨e, he, _⟩ := List.mem_map.mp hsig
  have hl : ∃ l, lookupKV (generateFragmentsState σ maxD).cache A.name = some l := by
    cases hcc : lookupKV (generateFragmentsState σ maxD).cache A.name with
    | none =>
        rw [entriesOf, hcc] at he
        cases he
    | some l => exact ⟨l, rfl⟩
  obtain ⟨l, hl⟩ := hl
  have hlen : 0 < l.length := by
    rw [entriesOf, hl] at he
    cases l with
    | nil => cases he
    | cons x xs => simp
  have hbare := expected_mem_of_lt (generateFragmentsState σ maxD) A.name hconcl.1 l hl 0 hlen
  have := name_present_of_entries (generateFragmentsState σ maxD) A.name [] hconcl.2.1
    (by simp) (expectedFragName A.name 0) hbare
  rw [expectedFragName] at this
  simpa [generateFragments] using this

theorem ccore_fst (maxD depth : Nat)
    (nested : GenState → String → Option String × GenState)
    (st : GenState) (tn : String) (fs : List FieldDef) :
    (createFragmentCore maxD depth nested st tn fs).1 =
      some (findOrCreateFragmentName st tn (mkSig tn fs)).1 := by
  rcases hfc : findOrCreateFragmentName st tn (mkSig tn fs) with ⟨fcn, st1⟩
  rw [ccore_eq maxD depth nested st tn fs fcn st1 hfc]
  by_cases h : containsKey st1.fragments fcn = true
  · rw [if_pos h]
  · rw [if_neg h]

theorem cfF_none_of_visited (σ : Schema) (maxD fuel : Nat) (st : GenState)
    (name : String) (depth : Nat) (visited : List String) (tdu : Option TypeDef)
    (h : name ∈ visited) :
    (createFragmentF σ maxD fuel st name depth visited tdu).1 = none := by
  cases fuel with
  | zero => rfl
  | succ k =>
      rw [cfF_succ_guard σ maxD k st name depth visited tdu (Or.inr (Or.inr h))]

theorem expectedFragName_one (n : String) :
    expectedFragName n 1 = n ++ "Fragment_2" := by
  rw [expectedFragName, if_neg (by omega : ¬ (1 : Nat) = 0)]
  show n ++ "Fragment_" ++ "2" = n ++ "Fragment_2"
  rw [String.append_assoc]
  rfl

theorem jsSize_pos (v : JSValue) : 1 ≤ jsSize v := by
  cases v <;> simp [jsSize]

/-! ## Claim C1 -/

/-- C1 counterexample: the claim, as stated, asserts that two same-named
OBJECT TypeDefinition instances with different field sets always yield
two fragment names and differing detailed signatures.  In c1Schema the
two Address instances have different field sets (street: String! versus
street: [String]), yet the detailed signature fieldName:unwrappedTypeName
erases the NonNull/List wrappers, the signatures coincide, and synthesize
produces a single fragment with no Address variant name. -/
theorem c1_counterexample :
    c1AddrA.fields ≠ c1AddrB.fields ∧
    c1AddrA.name = c1AddrB.name ∧
    c1AddrA.kind = "OBJECT" ∧ c1AddrB.kind = "OBJECT" ∧
    c1AddrA ∈ c1Schema.types ∧ c1AddrB ∈ c1Schema.types ∧
    mkSig "Address" [⟨"street", TypeRef.nonNull tString⟩] =
      mkSig "Address" [⟨"street", TypeRef.listT tString⟩] ∧
    generateFragments c1Schema 50 =
      [("AddressFragment", "fragment AddressFragment on Address \x7b street \x7d")] ∧
    containsKey (generateFragments c1Schema 50) "AddressFragment_2" = false := by
  decide

/-- C1 (amended): for every schema containing two OBJECT TypeDefinition
instances that share a (nonempty) name, both with a nonempty field list,
whose detailed signatures differ (rather than merely whose field sets
differ — wrapper-only differences produce equal signatures, see the
counterexample), synthesize produces two distinct fragment names for that
name: both the bare TypeNameFragment and the variant TypeNameFragment_2
are keys of the resulting FragmentMap. -/
theorem c1_two_fragment_names (σ : Schema) (d : Nat) (n : String) (A B : TypeDef)
    (fsA fsB : List FieldDef)
    (hA : A ∈ σ.types) (hB : B ∈ σ.types)
    (hAk : A.kind = "OBJECT") (hBk : B.kind = "OBJECT")
    (hAf : A.fields = some fsA) (hBf : B.fields = some fsB)
    (hAne : fsA ≠ []) (hBne : fsB ≠ [])
    (hAn : A.name = n) (hBn : B.name = n) (hn0 : n ≠ "")
    (hsig : mkSig n fsA ≠ mkSig n fsB) :
    containsKey (generateFragments σ d) (n ++ "Fragment") = true ∧
    containsKey (generateFragments σ d) (n ++ "Fragment_2") = true := by
  have HP : ∀ td, td ∈ σ.types → td.name = n → ∀ fs, td.fields = some fs →
      (fun _ => True) (mkSig n fs) := fun _ _ _ _ _ => trivial
  have hconcl := final_state_concl σ d n (fun _ => True) HP
  have hsA := final_state_sig σ d n (fun _ => True) HP A fsA hA hAk hAf hAne hAn hn0
  have hsB := final_state_sig σ d n (fun _ => True) HP B fsB hB hBk hBf hBne hBn hn0
  obtain ⟨l, hl⟩ : ∃ l, lookupKV (generateFragmentsState σ d).cache n = some l := by
    cases hcc : lookupKV (generateFragmentsState σ d).cache n with
    | none =>
        rw [entriesOf, hcc] at hsA
        simp at hsA
    | some l => exact ⟨l, rfl⟩
  rw [entriesOf, hl] at hsA hsB
  have hlen2 : 2 ≤ l.length := length_two_of_distinct l _ _ hsA hsB hsig
  have hbare := expected_mem_of_lt (generateFragmentsState σ d) n hconcl.1 l hl 0
    (by omega)
  have hv2 := expected_mem_of_lt (generateFragmentsState σ d) n hconcl.1 l hl 1
    (by omega)
  have h1 := name_present_of_entries (generateFragmentsState σ d) n [] hconcl.2.1
    (by simp) (expectedFragName n 0) hbare
  have h2 := name_present_of_entries (generateFragmentsState σ d) n [] hconcl.2.1
    (by simp) (expectedFragName n 1) hv2
  rw [expectedFragName] at h1
  rw [expectedFragName_one] at h2
  simp only [if_pos rfl] at h1
  exact ⟨h1, h2⟩

/-- C1 witness: the amended theorem applied to a concrete schema with two
Address instances of genuinely different signatures. -/
theorem c1_two_fragment_names_witness :
    containsKey (generateFragments c1SchemaW 50) ("Address" ++ "Fragment") = true ∧
    containsKey (generateFragments c1SchemaW 50) ("Address" ++ "Fragment_2") = true :=
  c1_two_fragment_names c1SchemaW 50 "Address" c1AddrA c1AddrC
    [⟨"street", TypeRef.nonNull tString⟩] [⟨"street", tString⟩, ⟨"city", tString⟩]
    (by decide) (by decide) (by decide) (by decide) (by decide) (by decide)
    (by decide) (by decide) (by decide) (by decide) (by decide) (by decide)

/-! ## Claim C3 -/

/-- C3: signatures are order-independent (a permutation of the field list
yields the same detailed signature), and for every schema in which all
TypeDefinition instances carrying the name agree on one detailed
signature s0 — in particular a schema containing two instances with
identical field sets, possibly declared in different orders — synthesize
allocates exactly one fragment for that name: the registry holds the
single entry (s0, nameFragment) and the FragmentMap carries the bare
fragment name, with no variant ever registered. -/
theorem c3_structural_reuse (σ : Schema) (d : Nat) (n s0 : String) (A : TypeDef)
    (fsA : List FieldDef) (hA : A ∈ σ.types) (hk : A.kind = "OBJECT")
    (hfs : A.fields = some fsA) (hne : fsA ≠ []) (hname : A.name = n) (hn0 : n ≠ "")
    (hall : ∀ td, td ∈ σ.types → td.name = n → ∀ fs, td.fields = some fs →
      mkSig n fs = s0) :
    (∀ (m : String) (l1 l2 : List FieldDef), l1.Perm l2 → mkSig m l1 = mkSig m l2) ∧
    lookupKV (generateFragmentsState σ d).cache n = some [(s0, n ++ "Fragment")] ∧
    containsKey (generateFragments σ d) (n ++ "Fragment") = true := by
  have hconcl := final_state_concl σ d n (fun s => s = s0) hall
  have hsig := final_state_sig σ d n (fun s => s = s0) hall A fsA hA hk hfs hne hname hn0
  obtain ⟨l, hl⟩ : ∃ l, lookupKV (generateFragmentsState σ d).cache n = some l := by
    cases hcc : lookupKV (generateFragmentsState σ d).cache n with
    | none =>
        rw [entriesOf, hcc] at hsig
        simp at hsig
    | some l => exact ⟨l, rfl⟩
  obtain ⟨hcount, hnel, hmap, hnodup⟩ := hconcl.1 l hl
  have hsigsOK : ∀ e ∈ l, e.1 = s0 := by
    intro e he
    exact hconcl.2.2.1 e (by rw [entriesOf, hl]; exact he)
  have hlen1 : l.length = 1 := by
    cases l with
    | nil => exact absurd rfl hnel
    | cons e rest =>
        cases rest with
        | nil => rfl
        | cons e2 rest2 =>
            have h1 : e.1 = s0 := hsigsOK e (by simp)
            have h2 : e2.1 = s0 := hsigsOK e2 (by simp)
            simp only [List.map_cons, List.nodup_cons, List.mem_cons] at hnodup
            exact absurd (h1.trans h2.symm) (fun hc => hnodup.1 (Or.inl hc))
  obtain ⟨e, he⟩ := List.length_eq_one.mp hlen1
  subst he
  have he1 : e.1 = s0 := hsigsOK e (by simp)
  have he2 : e.2 = n ++ "Fragment" := by
    have hr1 : List.range 1 = [0] := rfl
    simp only [List.map_cons, List.map_nil, List.length_cons, List.length_nil, hr1] at hmap
    have he0 : e.2 = expectedFragName n 0 := by
      simpa using hmap
    rw [he0, expectedFragName, if_pos rfl]
  refine ⟨mkSig_perm, ?_, ?_⟩
  · rw [hl]
    obtain ⟨e1v, e2v⟩ := e
    simp only at he1 he2
    rw [he1, he2]
  · refine name_present_of_entries (generateFragmentsState σ d) n [] hconcl.2.1
      (by simp) (n ++ "Fragment") ?_
    rw [entriesOf, hl]
    exact List.mem_map.mpr ⟨e, by simp, he2⟩

/-- C3 witness: applied to a schema with two Address instances whose
identical field sets are declared in opposite orders: one fragment, one
registry entry. -/
theorem c3_structural_reuse_witness :
    lookupKV (generateFragmentsState c3Schema 50).cache "Address" =
      some [("Address[city:String,street:String]", "Address" ++ "Fragment")] ∧
    containsKey (generateFragments c3Schema 50) ("Address" ++ "Fragment") = true :=
  ⟨(c3_structural_reuse c3Schema 50 "Address" "Address[city:String,street:String]"
      c1AddrC [⟨"street", tString⟩, ⟨"city", tString⟩] (by decide) (by decide)
      (by decide) (by decide) (by decide) (by decide) (by decide)).2.1,
   (c3_structural_reuse c3Schema 50 "Address" "Address[city:String,street:String]"
      c1AddrC [⟨"street", tString⟩, ⟨"city", tString⟩] (by decide) (by decide)
      (by decide) (by decide) (by decide) (by decide) (by decide)).2.2⟩

/-! ## Claim C4 -/

/-- C4 counterexample: the claim says buildFragment (createFragment)
returns null exactly when depth exceeds maxDepth or the name is in the
visited set.  In the schema c4SchemaA — which contains a self-referential
type A, the setting of the claim — the nested call on the unresolved type
name Missing returns null although its depth (1) is within bounds and
Missing is not in the visited set, so the characterization is not an
exact one. -/
theorem c4_counterexample :
    (∃ f, f ∈ (c4SchemaA.types.headD ⟨"", "", none⟩).fields.getD [] ∧
      getTypeName f.type = "A" ∧ (c4SchemaA.types.headD ⟨"", "", none⟩).name = "A") ∧
    ¬ ((1 : Nat) > 50) ∧ "Missing" ∉ ["A"] ∧
    createFragment c4SchemaA 50 initState "Missing" 1 ["A"] none =
      (none, initState) := by
  refine ⟨⟨⟨"self", TypeRef.base "OBJECT" "A"⟩, by decide, by decide, by decide⟩,
    by decide, by decide, by decide⟩

/-- C4 (amended): on every schema — including schemas with a directly or
transitively self-referential type A — synthesis terminates (the Lean
embedding is a total function) and the FragmentMap contains a fragment
for every OBJECT instance with a nonempty name and a nonempty field list;
buildFragment returns null exactly when the name is empty (JS falsy),
depth > maxDepth, the name is in the visited set, the name does not
resolve to a definition, or the resolved definition has no fields; and
whenever the nested fragment is unavailable (empty nested name, depth at
the bound, or a null nested result) the caller renders the field as the
bare field name instead of a spread. -/
theorem c4_null_and_fallback (σ : Schema) (d : Nat) :
    (∀ (A : TypeDef) (fsA : List FieldDef), A ∈ σ.types → A.kind = "OBJECT" →
      A.fields = some fsA → fsA ≠ [] → A.name ≠ "" →
      containsKey (generateFragments σ d) (A.name ++ "Fragment") = true) ∧
    (∀ (st : GenState) (typeName : String) (depth : Nat) (visited : List String)
      (tdu : Option TypeDef),
      (createFragment σ d st typeName depth visited tdu).1 = none ↔
        (typeName = "" ∨ depth > d ∨ typeName ∈ visited ∨
         resolveTd σ tdu typeName = none ∨
         ∃ td, resolveTd σ tdu typeName = some td ∧ td.fields = none)) ∧
    (∀ (maxD depth : Nat) (nested : GenState → String → Option String × GenState)
      (st : GenState) (f : FieldDef) (rest : List FieldDef),
      isObjectType f.type = true → isScalarType f.type = false →
      (getTypeName f.type = "" ∨ ¬ depth < maxD ∨
        (nested st (getTypeName f.type)).1 = none) →
      (buildFieldsGo maxD depth nested st (f :: rest)).1.head? = some f.name) := by
  refine ⟨?_, ?_, ?_⟩
  · intro A fsA hA hk hfs hne hn0
    exact bare_present σ d A fsA hA hk hfs hne hn0
  · intro st typeName depth visited tdu
    unfold createFragment
    cases hfuel : d + 1 - depth with
    | zero =>
        constructor
        · intro _
          exact Or.inr (Or.inl (by omega))
        · intro _
          rfl
    | succ k =>
        by_cases hg : typeName = "" ∨ depth > d ∨ typeName ∈ visited
        · rw [cfF_succ_guard σ d k st typeName depth visited tdu hg]
          constructor
          · intro _
            rcases hg with h | h | h
            · exact Or.inl h
            · exact Or.inr (Or.inl h)
            · exact Or.inr (Or.inr (Or.inl h))
          · intro _
            rfl
        · cases hres : resolveTd σ tdu typeName with
          | none =>
              rw [cfF_succ_noresolve σ d k st typeName depth visited tdu hg hres]
              exact ⟨fun _ => Or.inr (Or.inr (Or.inr (Or.inl rfl))), fun _ => rfl⟩
          | some td =>
              cases hfs : td.fields with
              | none =>
                  rw [cfF_succ_nofields σ d k st typeName depth visited tdu td hg hres hfs]
                  exact ⟨fun _ => Or.inr (Or.inr (Or.inr (Or.inr ⟨td, rfl, hfs⟩))),
                    fun _ => rfl⟩
              | some fs =>
                  rw [cfF_succ_core σ d k st typeName depth visited tdu td fs hg hres hfs]
                  rw [ccore_fst]
                  constructor
                  · intro h
                    cases h
                  · intro h
                    rcases h with h | h | h | h | h
                    · exact absurd (Or.inl h) hg
                    · exact absurd (Or.inr (Or.inl h)) hg
                    · exact absurd (Or.inr (Or.inr h)) hg
                    · cases h
                    · obtain ⟨td2, h1, h2⟩ := h
                      cases h1
                      rw [hfs] at h2
                      cases h2
  · intro maxD depth nested st f rest hobj hscal hfall
    have hhead : (buildFieldsGo maxD depth nested st (f :: rest)).1 =
        (buildFieldStep maxD depth nested st f).1 ::
          (buildFieldsGo maxD depth nested (buildFieldStep maxD depth nested st f).2 rest).1 :=
      rfl
    rw [hhead, List.head?_cons]
    congr 1
    unfold buildFieldStep
    rw [if_neg (by simp [hscal]), if_pos hobj]
    rcases hfall with h | h | h
    · rw [if_neg (by simp [h])]
    · rw [if_neg (by simp [h])]
    · by_cases hcond : getTypeName f.type ≠ "" ∧ depth < maxD
      · rw [if_pos hcond]
        show (match (nested st (getTypeName f.type)).1 with
          | some nfn => f.name ++ " \x7b ..." ++ nfn ++ " \x7d"
          | none => f.name) = f.name
        rw [h]
      · rw [if_neg hcond]

/-- C4 witness: the amended theorem applied to the concrete
self-referential schema: the fragment for A exists, the null
characterization is exercised on the unresolved name Missing at in-bounds
depth, and a null nested result degrades to the bare field name. -/
theorem c4_null_and_fallback_witness :
    containsKey (generateFragments c4SchemaA 50) ("A" ++ "Fragment") = true ∧
    ((createFragment c4SchemaA 50 initState "Missing" 1 ["A"] none).1 = none ↔
      ("Missing" = "" ∨ 1 > 50 ∨ "Missing" ∈ ["A"] ∨
       resolveTd c4SchemaA none "Missing" = none ∨
       ∃ td, resolveTd c4SchemaA none "Missing" = some td ∧ td.fields = none)) ∧
    (buildFieldsGo 50 0 (fun st _ => (none, st)) initState
      [⟨"self", TypeRef.base "OBJECT" "A"⟩]).1.head? = some "self" :=
  ⟨(c4_null_and_fallback c4SchemaA 50).1 ⟨"A", "OBJECT",
      some [⟨"self", TypeRef.base "OBJECT" "A"⟩, ⟨"m", TypeRef.base "OBJECT" "Missing"⟩]⟩
      [⟨"self", TypeRef.base "OBJECT" "A"⟩, ⟨"m", TypeRef.base "OBJECT" "Missing"⟩]
      (by decide) (by decide) (by decide) (by decide) (by decide),
   (c4_null_and_fallback c4SchemaA 50).2.1 initState "Missing" 1 ["A"] none,
   (c4_null_and_fallback c4SchemaA 50).2.2 50 0 (fun st _ => (none, st)) initState
      ⟨"self", TypeRef.base "OBJECT" "A"⟩ [] (by decide) (by decide)
      (Or.inr (Or.inr rfl))⟩

/-! ## Claim C10 -/

/-- C10: a createFragment call on a name already in the visited set
returns null, and therefore every field selection built by the loop that
createFragment runs — which always receives the visited set with the
own type name of the fragment freshly inserted (typeName :: visited in
createFragmentF) — renders every field whose unwrapped type name is in
that visited set, in particular every self-typed field, as the bare field
name and never as a spread: no fragment body can contain a spread of its
own fragment name. -/
theorem c10_no_self_spread :
    (∀ (σ : Schema) (maxD fuel : Nat) (st : GenState) (name : String)
      (depth : Nat) (visited : List String) (tdu : Option TypeDef),
      name ∈ visited →
      (createFragmentF σ maxD fuel st name depth visited tdu).1 = none) ∧
    (∀ (σ : Schema) (maxD fuel depth : Nat) (visited : List String) (name : String),
      name ∈ visited →
      ∀ (fs : List FieldDef) (st : GenState),
        List.Forall₂ (fun s f => getTypeName (FieldDef.type f) = name → s = f.name)
          (buildFieldsGo maxD depth
            (fun st2 ftn =>
              createFragmentF σ maxD fuel st2 ftn (depth + 1) visited none)
            st fs).1 fs) := by
  refine ⟨cfF_none_of_visited, ?_⟩
  intro σ maxD fuel depth visited name hmem fs
  induction fs with
  | nil =>
      intro st
      exact List.Forall₂.nil
  | cons f rest ih =>
      intro st
      have hcons : (buildFieldsGo maxD depth
          (fun st2 ftn => createFragmentF σ maxD fuel st2 ftn (depth + 1) visited none)
          st (f :: rest)).1 =
        (buildFieldStep maxD depth
          (fun st2 ftn => createFragmentF σ maxD fuel st2 ftn (depth + 1) visited none)
          st f).1 ::
        (buildFieldsGo maxD depth
          (fun st2 ftn => createFragmentF σ maxD fuel st2 ftn (depth + 1) visited none)
          (buildFieldStep maxD depth
            (fun st2 ftn => createFragmentF σ maxD fuel st2 ftn (depth + 1) visited none)
            st f).2 rest).1 := rfl
      rw [hcons]
      refine List.Forall₂.cons ?_ (ih _)
      intro heq
      unfold buildFieldStep
      by_cases h1 : isScalarType f.type = true
      · rw [if_pos h1]
      · rw [if_neg h1]
        by_cases h2 : isObjectType f.type = true
        · rw [if_pos h2]
          by_cases h3 : getTypeName f.type ≠ "" ∧ depth < maxD
          · rw [if_pos h3]
            show (match (createFragmentF σ maxD fuel st (getTypeName f.type)
                (depth + 1) visited none).1 with
              | some nfn => f.name ++ " \x7b ..." ++ nfn ++ " \x7d"
              | none => f.name) = f.name
            rw [heq, cfF_none_of_visited σ maxD fuel st name (depth + 1) visited none hmem]
          · rw [if_neg h3]
        · rw [if_neg h2]

/-- C10 witness: on the concrete self-referential schema, the body builder
invoked with A in the visited set renders the self-typed field bare. -/
theorem c10_no_self_spread_witness :
    (createFragmentF c4SchemaA 50 50 initState "A" 1 ["A"] none).1 = none ∧
    List.Forall₂ (fun s f => getTypeName (FieldDef.type f) = "A" → s = f.name)
      (buildFieldsGo 50 0
        (fun st2 ftn => createFragmentF c4SchemaA 50 50 st2 ftn (0 + 1) ["A"] none)
        initState [⟨"self", TypeRef.base "OBJECT" "A"⟩]).1
      [⟨"self", TypeRef.base "OBJECT" "A"⟩] :=
  ⟨c10_no_self_spread.1 c4SchemaA 50 50 initState "A" 1 ["A"] none (by decide),
   c10_no_self_spread.2 c4SchemaA 50 50 0 ["A"] "A" (by decide)
     [⟨"self", TypeRef.base "OBJECT" "A"⟩] initState⟩

/-! ## Claim C7 -/

/-- C7 counterexample: the claim says the structural validator threads a
configurable maxDepth and a visited set keyed by type name through its
recursion.  It does neither: validateDataAgainstType takes no depth or
visited parameter, and on the self-referential type A it re-enters A once
per data level — the diagnostics at paths a.a.a and a.a.x come from the
third visit to type A, which a visited set keyed by type name would have
cut off at the first re-entry. -/
theorem c7_counterexample :
    (validateDataAgainstSchema c7Env c7Data "A").toOption.map
        (fun r => r.missingFields.map (fun m => m.path)) =
      some ["a.a.a", "a.a.x", "a.x", "x"] ∧
    (validateDataAgainstSchema c7Env c7Data "A").toOption.map
        (fun r => r.missingFields.map (fun m => m.parentType)) =
      some ["A", "A", "A", "A"] := by
  decide

/-- C7 (amended): fragment synthesis enforces the explicit depth bound
and the visited set — createFragment returns null and leaves the state
untouched whenever depth > maxDepth or the type name was already
visited.  The structural validator enforces neither: it carries no depth
or visited parameter, its recursion instead descending the finite data
instance, as the concrete run on the self-referential type A shows by
revisiting A at every nesting level of the data. -/
theorem c7_depth_bound_synthesis_only :
    (∀ (σ : Schema) (d : Nat) (st : GenState) (name : String) (depth : Nat)
      (visited : List String) (tdu : Option TypeDef),
      depth > d ∨ name ∈ visited →
      createFragment σ d st name depth visited tdu = (none, st)) ∧
    validateDataAgainstSchema c7Env c7Data "A" =
      Except.ok ⟨false,
        [⟨"a.a.a", "a", "A", false, "A"⟩, ⟨"a.a.x", "x", "Int!", true, "A"⟩,
         ⟨"a.x", "x", "Int!", true, "A"⟩, ⟨"x", "x", "Int!", true, "A"⟩], [], []⟩ := by
  constructor
  · intro σ d st name depth visited tdu h
    unfold createFragment
    cases hfuel : d + 1 - depth with
    | zero => rfl
    | succ k =>
        refine cfF_succ_guard σ d k st name depth visited tdu ?_
        rcases h with h | h
        · exact Or.inr (Or.inl h)
        · exact Or.inr (Or.inr h)
  · decide

/-- C7 witness: the synthesis half applied at a concrete in-bounds call
with the name already visited. -/
theorem c7_depth_bound_witness :
    createFragment c4SchemaA 5 initState "A" 1 ["A"] none = (none, initState) :=
  c7_depth_bound_synthesis_only.1 c4SchemaA 5 initState "A" 1 ["A"] none
    (Or.inr (by decide))

/-! ## Claim C6 -/

/-- C6: on null or undefined data the validator emits exactly one
MissingField with required = true when the type reference is NonNull, and
no diagnostic at all otherwise. -/
theorem c6_null_or_undefined (env : VSchema) (type : VType)
    (path fieldName parent : String) (data : JSValue)
    (hdata : data = JSValue.null ∨ data = JSValue.undef) :
    (isRequiredV type = true →
      validateDataAgainstType env data type path fieldName parent =
        ⟨[⟨path, fieldName, getTypeString type, true, parent⟩], [], []⟩) ∧
    (isRequiredV type = false →
      validateDataAgainstType env data type path fieldName parent = ⟨[], [], []⟩) := by
  rcases hdata with h | h
  · subst h
    have key : validateDataAgainstType env JSValue.null type path fieldName parent =
        (if isRequiredV type then
          ⟨[⟨path, fieldName, getTypeString type, true, parent⟩], [], []⟩
         else (∅ : Diags)) := rfl
    rw [key]
    constructor
    · intro hreq
      rw [if_pos hreq]
    · intro hreq
      rw [if_neg (by simp [hreq])]
      rfl
  · subst h
    have key : validateDataAgainstType env JSValue.undef type path fieldName parent =
        (if isRequiredV type then
          ⟨[⟨path, fieldName, getTypeString type, true, parent⟩], [], []⟩
         else (∅ : Diags)) := rfl
    rw [key]
    constructor
    · intro hreq
      rw [if_pos hreq]
    · intro hreq
      rw [if_neg (by simp [hreq])]
      rfl

/-- C6 witness: a NonNull ID reference against null yields the one
required MissingField; the bare object reference yields nothing. -/
theorem c6_null_or_undefined_witness :
    validateDataAgainstType c2Env JSValue.null (VType.nonNull (VType.scalarT "ID"))
      "p" "f" "User" = ⟨[⟨"p", "f", "ID!", true, "User"⟩], [], []⟩ ∧
    validateDataAgainstType c2Env JSValue.undef (VType.objectT "User")
      "" "User" "User" = ⟨[], [], []⟩ :=
  ⟨(c6_null_or_undefined c2Env (VType.nonNull (VType.scalarT "ID")) "p" "f" "User"
      JSValue.null (Or.inl rfl)).1 rfl,
   (c6_null_or_undefined c2Env (VType.objectT "User") "" "User" "User"
      JSValue.undef (Or.inr rfl)).2 rfl⟩

/-! ## Claim C9 -/

/-- C9: for every schema environment and object root type, validating a
null (or undefined) data instance succeeds with valid = true and all
three diagnostic lists empty — the root object type is not NonNull
wrapped, so the absent instance produces no diagnostics. -/
theorem c9_null_root (env : VSchema) (tn nm : String) (fields : List (String × VType))
    (h : getTypeD env tn = some (NamedDef.objectD nm fields)) (data : JSValue)
    (hdata : data = JSValue.null ∨ data = JSValue.undef) :
    validateDataAgainstSchema env data tn = Except.ok ⟨true, [], [], []⟩ := by
  rcases hdata with hd | hd
  · subst hd
    unfold validateDataAgainstSchema
    rw [h]
    rfl
  · subst hd
    unfold validateDataAgainstSchema
    rw [h]
    rfl

/-- C9 witness: null User data validates with an all-clear result. -/
theorem c9_null_root_witness :
    validateDataAgainstSchema c2Env JSValue.null "User" =
      Except.ok ⟨true, [], [], []⟩ :=
  c9_null_root c2Env "User" "User"
    [("id", VType.nonNull (VType.scalarT "ID")), ("name", VType.scalarT "String")]
    (by decide) JSValue.null (Or.inl rfl)

/-! ## Claim C2 -/

/-- C2: the ValidationResult returned by validate always satisfies
valid = true exactly when missingFields and typeErrors are both empty —
extraFields never affect validity — and in particular data carrying only
an undeclared extra key nickname yields one ExtraField while valid stays
true. -/
theorem c2_valid_iff :
    (∀ (env : VSchema) (data : JSValue) (tn : String) (r : ValidationResult),
      validateDataAgainstSchema env data tn = Except.ok r →
      (r.valid = true ↔ (r.missingFields = [] ∧ r.typeErrors = []))) ∧
    validateDataAgainstSchema c2Env c2Data "User" =
      Except.ok ⟨true, [],
        [⟨"nickname", "nickname",
          "Field \x27nickname\x27 not found in type \x27User\x27"⟩], []⟩ := by
  constructor
  · intro env data tn r h
    unfold validateDataAgainstSchema at h
    cases hg : getTypeD env tn with
    | none =>
        rw [hg] at h
        cases h
    | some dfn =>
        rw [hg] at h
        simp only [] at h
        by_cases hobj : dfn.isObjectD = true
        · rw [if_pos hobj] at h
          injection h with h2
          subst h2
          simp [List.isEmpty_iff, Bool.and_eq_true]
        · rw [if_neg hobj] at h
          cases h
  · decide

/-- C2 witness: the invariant applied to the concrete run whose only
discrepancy is the extra nickname key. -/
theorem c2_valid_iff_witness :
    ((⟨true, [],
      [⟨"nickname", "nickname",
        "Field \x27nickname\x27 not found in type \x27User\x27"⟩], []⟩ :
        ValidationResult).valid = true ↔
      ((⟨true, [],
        [⟨"nickname", "nickname",
          "Field \x27nickname\x27 not found in type \x27User\x27"⟩], []⟩ :
          ValidationResult).missingFields = [] ∧
       (⟨true, [],
        [⟨"nickname", "nickname",
          "Field \x27nickname\x27 not found in type \x27User\x27"⟩], []⟩ :
          ValidationResult).typeErrors = [])) :=
  c2_valid_iff.1 c2Env c2Data "User" _ (by decide)

/-! ## Claim C5 -/

/-- C5: validate returns an explicit error exactly when the requested
root type name does not resolve or resolves to a non-object type; when
the root type is an object type the call always returns a structured ok
result, so data discrepancies are never thrown. -/
theorem vds_eq_none (env : VSchema) (data : JSValue) (tn : String)
    (hg : getTypeD env tn = none) :
    validateDataAgainstSchema env data tn =
      Except.error ("Schema validation failed: Type " ++ "\x27" ++ tn ++
        "\x27 not found in schema") := by
  unfold validateDataAgainstSchema
  rw [hg]

theorem vds_eq_some (env : VSchema) (data : JSValue) (tn : String) (dfn : NamedDef)
    (hg : getTypeD env tn = some dfn) :
    validateDataAgainstSchema env data tn =
      (if dfn.isObjectD = true then
        Except.ok
          ⟨(validateDataAgainstType env data (VType.objectT tn) "" tn tn).missing.isEmpty &&
            (validateDataAgainstType env data (VType.objectT tn) "" tn tn).typeErrors.isEmpty,
           (validateDataAgainstType env data (VType.objectT tn) "" tn tn).missing,
           (validateDataAgainstType env data (VType.objectT tn) "" tn tn).extra,
           (validateDataAgainstType env data (VType.objectT tn) "" tn tn).typeErrors⟩
       else
        Except.error ("Schema validation failed: Type " ++ "\x27" ++ tn ++
          "\x27 is not an object type")) := by
  unfold validateDataAgainstSchema
  rw [hg]

theorem c5_error_iff (env : VSchema) (data : JSValue) (tn : String) :
    ((∃ msg, validateDataAgainstSchema env data tn = Except.error msg) ↔
      (getTypeD env tn = none ∨
       ∃ dfn, getTypeD env tn = some dfn ∧ dfn.isObjectD = false)) ∧
    (∀ dfn, getTypeD env tn = some dfn → dfn.isObjectD = true →
      ∃ r, validateDataAgainstSchema env data tn = Except.ok r) := by
  cases hg : getTypeD env tn with
  | none =>
      rw [vds_eq_none env data tn hg]
      refine ⟨⟨fun _ => Or.inl rfl, fun _ => ⟨_, rfl⟩⟩, ?_⟩
      intro dfn h
      cases h
  | some dfn =>
      rw [vds_eq_some env data tn dfn hg]
      by_cases hobj : dfn.isObjectD = true
      · rw [if_pos hobj]
        refine ⟨⟨?_, ?_⟩, ?_⟩
        · intro hex
          obtain ⟨msg, hmsg⟩ := hex
          cases hmsg
        · intro h
          rcases h with h | ⟨dfn2, h1, h2⟩
          · cases h
          · cases h1
            rw [hobj] at h2
            cases h2
        · intro dfn2 h1 h2
          exact ⟨_, rfl⟩
      · rw [if_neg hobj]
        refine ⟨⟨?_, ?_⟩, ?_⟩
        · intro _
          exact Or.inr ⟨dfn, rfl, by simpa using hobj⟩
        · intro _
          exact ⟨_, rfl⟩
        · intro dfn2 h1 h2
          cases h1
          exact absurd h2 hobj

/-- C5 witness: an absent root type name produces an explicit error. -/
theorem c5_error_iff_witness :
    ∃ msg, validateDataAgainstSchema [] JSValue.null "Missing" =
      Except.error msg :=
  (c5_error_iff [] JSValue.null "Missing").1.mpr (Or.inl (by decide))

/-! ## Claim C8 -/

/-- C8 counterexample: the claim says that for enum-typed fields the
validator performs the string-representability check.  It performs no
check at all: the number 42 — not representable as a string — against the
enum field c elicits no TypeError and the result is fully valid. -/
theorem c8_counterexample :
    getJSType (JSValue.num 42) ≠ "string" ∧
    validateDataAgainstSchema c8Env c8Data "User" =
      Except.ok ⟨true, [], [], []⟩ := by
  decide

/-- C8 (amended): for every field whose declared (unwrapped) type is an
enum whose name is none of the five builtin scalar names, the validator
performs no type check at all: every non-null, non-undefined runtime
value — string or not — yields no diagnostic of any kind. -/
theorem c8_enum_unchecked (env : VSchema) (path fieldName parent ename : String)
    (data : JSValue) (hdata : isNullish data = false)
    (h1 : ename ≠ "Int") (h2 : ename ≠ "Float") (h3 : ename ≠ "String")
    (h4 : ename ≠ "ID") (h5 : ename ≠ "Boolean") :
    validateDataAgainstType env data (VType.enumT ename) path fieldName parent =
      ⟨[], [], []⟩ ∧
    validateDataAgainstType env data (VType.nonNull (VType.enumT ename)) path
      fieldName parent = ⟨[], [], []⟩ := by
  cases hsz : jsSize data with
  | zero =>
      have := jsSize_pos data
      omega
  | succ k =>
      constructor
      · have key : validateDataAgainstType env data (VType.enumT ename) path
            fieldName parent = vTypeF env (jsSize data) data (VType.enumT ename)
              path fieldName parent := rfl
        rw [key, hsz]
        have key2 : vTypeF env (Nat.succ k) data (VType.enumT ename) path
            fieldName parent =
            (if isNullish data then
              (if isRequiredV (VType.enumT ename) then
                ⟨[⟨path, fieldName, getTypeString (VType.enumT ename), true, parent⟩],
                  [], []⟩
               else (∅ : Diags))
             else
              (if ename = "Int" ∨ ename = "Float" then
                (if getJSType data ≠ "number" then
                  ⟨[], [], [⟨path, fieldName, ename, getJSType data⟩]⟩
                 else (∅ : Diags))
               else if ename = "String" ∨ ename = "ID" then
                (if getJSType data ≠ "string" then
                  ⟨[], [], [⟨path, fieldName, ename, getJSType data⟩]⟩
                 else (∅ : Diags))
               else if ename = "Boolean" then
                (if getJSType data ≠ "boolean" then
                  ⟨[], [], [⟨path, fieldName, ename, getJSType data⟩]⟩
                 else (∅ : Diags))
               else (∅ : Diags))) := rfl
        rw [key2, if_neg (by simp [hdata]), if_neg (by simp [h1, h2]),
          if_neg (by simp [h3, h4]), if_neg h5]
        rfl
      · have key : validateDataAgainstType env data
            (VType.nonNull (VType.enumT ename)) path fieldName parent =
            vTypeF env (jsSize data) data (VType.nonNull (VType.enumT ename))
              path fieldName parent := rfl
        rw [key, hsz]
        have key2 : vTypeF env (Nat.succ k) data (VType.nonNull (VType.enumT ename))
            path fieldName parent =
            (if isNullish data then
              (if isRequiredV (VType.nonNull (VType.enumT ename)) then
                ⟨[⟨path, fieldName,
                    getTypeString (VType.nonNull (VType.enumT ename)), true, parent⟩],
                  [], []⟩
               else (∅ : Diags))
             else
              (if ename = "Int" ∨ ename = "Float" then
                (if getJSType data ≠ "number" then
                  ⟨[], [], [⟨path, fieldName, ename, getJSType data⟩]⟩
                 else (∅ : Diags))
               else if ename = "String" ∨ ename = "ID" then
                (if getJSType data ≠ "string" then
                  ⟨[], [], [⟨path, fieldName, ename, getJSType data⟩]⟩
                 else (∅ : Diags))
               else if ename = "Boolean" then
                (if getJSType data ≠ "boolean" then
                  ⟨[], [], [⟨path, fieldName, ename, getJSType data⟩]⟩
                 else (∅ : Diags))
               else (∅ : Diags))) := rfl
        rw [key2, if_neg (by simp [hdata]), if_neg (by simp [h1, h2]),
          if_neg (by simp [h3, h4]), if_neg h5]
        rfl

/-- C8 witness: the amended theorem at the concrete enum field with the
number 42, and with a string value. -/
theorem c8_enum_unchecked_witness :
    validateDataAgainstType c8Env (JSValue.num 42) (VType.enumT "Color")
      "c" "c" "User" = ⟨[], [], []⟩ ∧
    validateDataAgainstType c8Env (JSValue.num 42)
      (VType.nonNull (VType.enumT "Color")) "c" "c" "User" = ⟨[], [], []⟩ :=
  c8_enum_unchecked c8Env "c" "c" "User" "Color" (JSValue.num 42) (by decide)
    (by decide) (by decide) (by decide) (by decide) (by decide)

end GraphqlUtil
